import Mathlib

/-!
# GithubReleaseOTA: release metadata and the streaming flash engine

A shallow embedding of `src/GithubReleaseOTA.cpp` / `src/GithubReleaseOTA.h`.

* The HTTP client, the response stream, the JSON deserializer, the allocator and the
  `Update` sink are collaborators that live outside the repository.  Their replies are
  inputs of the model (scripted replies); every call `flashByAssetId` makes to them is
  recorded as an `Event` in the trace it returns.  Log lines (`ESP_LOGE`, `ESP_LOGI`) are
  not recorded.
* `size_t` is the 32 bit unsigned type of the ESP32 tool-chain, `int` its 32 bit signed type.
* A `const char*` is an `Option String`: `none` is `NULL`.
-/

namespace GithubReleaseOTA

/-! ## Constants of `GithubReleaseOTA.h` -/

def OTA_SUSSES : Int := 0
def OTA_NULL_URL : Int := 1
def OTA_CONNECT_ERROR : Int := 2
def OTA_BEGIN_ERROR : Int := 3
def OTA_WRITE_ERROR : Int := 4
def OTA_END_ERROR : Int := 5

/-- Status `HTTP_CODE_OK` of `HTTPClient.h`. -/
def HTTP_CODE_OK : Int := 200

/-- Modelled from the spec: the update sink's region enum ("firmware" against "auxiliary
filesystem"); `U_FLASH` and `U_SPIFFS` are declared in `Update.h`, which is not part of the
repository. -/
inductive FlashType where
  | U_FLASH
  | U_SPIFFS
  deriving DecidableEq, Repr

def FLASH_TYPE_FIRMWARE : FlashType := FlashType.U_FLASH
def FLASH_TYPE_SPIFFS : FlashType := FlashType.U_SPIFFS

def GITHUB_OTA_FIRMWARE_NAME : String := "firmware.bin"
def GITHUB_OTA_SPIFFS_NAME : String := "spiffs.bin"

/-! ## Machine integers -/

/-- Conversion of an `int` to `size_t` (32 bit, modular). -/
def toSizeT (i : Int) : Nat := (i % 2 ^ 32).toNat

/-- Conversion of a `size_t` value to `int` (32 bit two's complement). -/
def toInt (n : Nat) : Int :=
  if n % 2 ^ 32 < 2 ^ 31 then ((n % 2 ^ 32 : Nat) : Int) else ((n % 2 ^ 32 : Nat) : Int) - 2 ^ 32

/-! ## Trace of calls to the collaborators -/

/-- One call made by `flashByAssetId`, in program order. -/
inductive Event where
  /-- `malloc(urlSize)` returned a buffer. -/
  | mallocUrl
  /-- `client.begin(url)` or `client.begin(url, ca)`. -/
  | clientBegin (assetId : Int) (withCa : Bool)
  | setAuthorization
  | setFollowRedirects
  | addHeader (name value : String)
  | GET
  | clientEnd
  /-- `free(url)`. -/
  | freeUrl
  | getSize
  | updateBegin (size : Int) (flashType : FlashType)
  | getStream
  | streamAvailable
  | streamReadBytes (length : Nat)
  | updateWrite (length : Nat)
  | progressCallback (progress : Int)
  | delay
  | updateEnd
  deriving DecidableEq, Repr

/-- The fields of the `GithubReleaseOTA` object that `flashByAssetId` reads.
`progressCallback` is not declared in the header of the repository; it is taken as a field
that says whether a callback is set. -/
structure Engine where
  releaseUrl : Option String
  token : Option String
  ca : Option String
  progressCallback : Bool

/-- One turn of the copy loop as the stream answers it: what `stream.available()` returns
and how many bytes the stream hands over when `readBytes` is called (`readBytes(buf, n)`
never returns more than `n`). -/
structure Poll where
  available : Int
  readBytes : Nat
  deriving DecidableEq, Repr

/-- The scripted replies of the allocator and of the HTTP collaborator. -/
structure Download where
  /-- whether `malloc(urlSize)` returns a non-null buffer -/
  urlAllocated : Bool
  /-- result of `client.GET()` -/
  status : Int
  /-- result of `client.getSize()` -/
  size : Int
  /-- the answers of the response stream, one per loop turn -/
  polls : List Poll

/-- The scripted replies of the `Update` sink. `write i n` is the count returned by the
`i`-th call (counted from 0) of `Update.write` when it is offered `n` bytes. -/
structure UpdateSink where
  begin : Int → FlashType → Bool
  write : Nat → Nat → Nat
  end_ : Bool

def chunkSize : Nat := 1024

/-- The value of `readSize` in a loop turn answered by `p`; 0 when `available` is 0 and
nothing is read. -/
def readSizeOf (p : Poll) : Nat :=
  if 0 < toSizeT p.available then min p.readBytes (min (toSizeT p.available) chunkSize) else 0

/-- The value of `progress` : `(written * 100) / size` in `size_t` arithmetic, stored in an
`int`. -/
def progressOf (written : Nat) (size : Int) : Int :=
  toInt ((written * 100 % 2 ^ 32) / toSizeT size)

/-- The calls of the progress-reporting block
`if (progress != lastProgress) { if (this->progressCallback) ...; lastProgress = progress; }`. -/
def reportProgress (cb : Bool) (progress lastProgress : Int) : List Event :=
  if progress ≠ lastProgress then (if cb then [Event.progressCallback progress] else []) else []

/-- How one turn of the loop body ends. -/
inductive Turn where
  /-- `return OTA_WRITE_ERROR` from inside the loop -/
  | abort (events : List Event)
  /-- the turn reaches `delay(1)` with these values of `written`, `lastProgress` and the
  number of `Update.write` calls made so far -/
  | next (written : Nat) (lastProgress : Int) (writes : Nat) (events : List Event)

/-- The body of `while (written < size)` for one answer of the stream. -/
def loopBody (cb : Bool) (sink : UpdateSink) (size : Int) (p : Poll)
    (written : Nat) (lastProgress : Int) (writes : Nat) : Turn :=
  let available := toSizeT p.available
  if 0 < available then
    let readSize := min p.readBytes (min available chunkSize)
    let rd := [Event.streamAvailable, Event.streamReadBytes (min available chunkSize)]
    if 0 < readSize then
      if sink.write writes readSize ≠ readSize then
        Turn.abort (rd ++ [Event.updateWrite readSize])
      else
        let written1 := (written + readSize) % 2 ^ 32
        let progress := progressOf written1 size
        Turn.next written1 progress (writes + 1)
          (rd ++ [Event.updateWrite readSize] ++ reportProgress cb progress lastProgress
            ++ [Event.delay])
    else
      let progress := progressOf written size
      Turn.next written progress writes
        (rd ++ reportProgress cb progress lastProgress ++ [Event.delay])
  else
    Turn.next written lastProgress writes [Event.streamAvailable, Event.delay]

/-- The loop `while (written < size) { ... }`. The result is `none` when the script of
stream answers ends while `written < size` still holds (the run has not left the loop);
otherwise it is `(completed, events)`, `completed = false` meaning the loop was left by
`return OTA_WRITE_ERROR`. -/
def copyLoop (cb : Bool) (sink : UpdateSink) (size : Int) :
    List Poll → Nat → Int → Nat → Option (Bool × List Event)
  | [], written, _, _ => if written < toSizeT size then none else some (true, [])
  | p :: ps, written, lastProgress, writes =>
    if written < toSizeT size then
      match loopBody cb sink size p written lastProgress writes with
      | Turn.abort evs => some (false, evs)
      | Turn.next written1 lastProgress1 writes1 evs =>
        (copyLoop cb sink size ps written1 lastProgress1 writes1).map
          (fun r => (r.1, evs ++ r.2))
    else some (true, [])

/-- The calls up to and including `client.GET()`. -/
def requestEvents (e : Engine) (assetId : Int) : List Event :=
  [Event.mallocUrl, Event.clientBegin assetId e.ca.isSome]
    ++ (if e.token.isSome then [Event.setAuthorization] else [])
    ++ [Event.setFollowRedirects,
        Event.addHeader "Accept" "application/octet-stream",
        Event.addHeader "X-GitHub-Api-Version" "2022-11-28",
        Event.GET]

/-- The calls `client.getSize()` and `Update.begin(size, flashType)`. -/
def beginEvents (size : Int) (flashType : FlashType) : List Event :=
  [Event.getSize, Event.updateBegin size flashType]

/-- The calls `client.end(); free(url);` that precede every `return` after `client.begin`. -/
def releaseEvents : List Event := [Event.clientEnd, Event.freeUrl]

/-- `GithubReleaseOTA::flashByAssetId`: the returned status and the trace of calls, or
`none` when the run is still inside the copy loop at the end of the stream script. -/
def flashByAssetId (e : Engine) (d : Download) (sink : UpdateSink)
    (assetId : Int) (flashType : FlashType) : Option (Int × List Event) :=
  if !d.urlAllocated then some (OTA_NULL_URL, [])
  else if d.status ≠ HTTP_CODE_OK then
    some (OTA_CONNECT_ERROR, requestEvents e assetId ++ releaseEvents)
  else
    let size := d.size
    let pre := requestEvents e assetId ++ beginEvents size flashType
    if !sink.begin size flashType then some (OTA_BEGIN_ERROR, pre ++ releaseEvents)
    else
      match copyLoop e.progressCallback sink size d.polls 0 (-1) 0 with
      | none => none
      | some (false, evs) =>
        some (OTA_WRITE_ERROR, pre ++ [Event.getStream] ++ evs ++ releaseEvents)
      | some (true, evs) =>
        if !sink.end_ then
          some (OTA_END_ERROR, pre ++ [Event.getStream] ++ evs ++ [Event.updateEnd]
            ++ releaseEvents)
        else
          some (OTA_SUSSES, pre ++ [Event.getStream] ++ evs ++ [Event.updateEnd]
            ++ releaseEvents)

/-! ## Metadata model (`GithubReleaseOTA.h`) -/

structure GithubAuthor where
  login : Option String
  id : Int
  node_id : Option String
  avatar_url : Option String
  gravatar_id : Option String
  url : Option String
  html_url : Option String
  followers_url : Option String
  following_url : Option String
  gists_url : Option String
  starred_url : Option String
  subscriptions_url : Option String
  organizations_url : Option String
  repos_url : Option String
  events_url : Option String
  received_events_url : Option String
  type : Option String
  site_admin : Bool
  deriving DecidableEq, Repr

structure GithubReleaseAsset where
  url : Option String
  browser_download_url : Option String
  id : Int
  node_id : Option String
  name : Option String
  label : Option String
  state : Option String
  content_type : Option String
  size : Int
  download_count : Int
  created_at : Option String
  updated_at : Option String
  uploader : List GithubAuthor
  deriving DecidableEq, Repr

structure GithubRelease where
  url : Option String
  html_url : Option String
  assets_url : Option String
  upload_url : Option String
  tarball_url : Option String
  zipball_url : Option String
  id : Int
  node_id : Option String
  tag_name : Option String
  target_commitish : Option String
  name : Option String
  body : Option String
  draft : Bool
  prerelease : Bool
  created_at : Option String
  published_at : Option String
  assets : List GithubReleaseAsset
  author : List GithubAuthor
  deriving DecidableEq, Repr

/-- The values that the members of `GithubReleaseAsset` declared without a default
initialiser (`id`, `size`, `download_count`) hold after the declaration
`GithubReleaseAsset asset;`: whatever the storage held before. -/
structure AssetIndeterminate where
  id : Int
  size : Int
  download_count : Int
  deriving DecidableEq, Repr

/-- The values that the members of `GithubRelease` declared without a default initialiser
(`id`, `tag_name`, `draft`, `prerelease`) hold after the declaration
`GithubRelease release;`: whatever the storage held before. A non-null `tag_name` here is
a pointer that no `malloc` returned. -/
structure ReleaseIndeterminate where
  id : Int
  tag_name : Option String
  draft : Bool
  prerelease : Bool
  deriving DecidableEq, Repr

/-- The object after the declaration `GithubReleaseAsset asset;`. -/
def GithubReleaseAsset.declared (u : AssetIndeterminate) : GithubReleaseAsset :=
  { url := none, browser_download_url := none, id := u.id, node_id := none, name := none,
    label := none, state := none, content_type := none, size := u.size,
    download_count := u.download_count, created_at := none, updated_at := none,
    uploader := [] }

/-- The object after the declaration `GithubRelease release;`. -/
def GithubRelease.declared (u : ReleaseIndeterminate) : GithubRelease :=
  { url := none, html_url := none, assets_url := none, upload_url := none,
    tarball_url := none, zipball_url := none, id := u.id, node_id := none,
    tag_name := u.tag_name, target_commitish := none, name := none, body := none,
    draft := u.draft, prerelease := u.prerelease, created_at := none, published_at := none,
    assets := [], author := [] }

/-! ## The JSON collaborator -/

/-- Modelled from the spec: the tree the JSON collaborator (ArduinoJson, not part of the
repository) produces from a payload, with "object-key and array-index navigation and typed
scalar extraction". `int n` is a number whose extraction as a C `int` yields `n`; `null`
is also the document of a payload that failed to parse. -/
inductive JsonVariant where
  | null
  | bool (b : Bool)
  | int (n : Int)
  | str (s : String)
  | arr (elements : List JsonVariant)
  | obj (members : List (String × JsonVariant))

namespace JsonVariant

/-- Navigation `v[key]`: the member of that key, `null` when `v` is not an object or has
no such member. -/
def get (v : JsonVariant) (key : String) : JsonVariant :=
  match v with
  | obj members => (members.lookup key).getD null
  | _ => null

/-- Extraction as `const char*`: the string, `NULL` for anything else. -/
def asCStr : JsonVariant → Option String
  | str s => some s
  | _ => none

/-- Extraction as `int`: 0 for anything that is not a number. -/
def asInt : JsonVariant → Int
  | int n => n
  | _ => 0

/-- Extraction as `bool`: `false` for anything that is not a boolean. -/
def asBool : JsonVariant → Bool
  | bool b => b
  | _ => false

/-- Extraction `as<JsonArray>()`: the elements, none for anything that is not an array. -/
def asArray : JsonVariant → List JsonVariant
  | arr elements => elements
  | _ => []

end JsonVariant

/-! ## Metadata builder -/

/-- The lambda `copyString` of `makeRelease`. `heap i` says whether the `i`-th call of
`malloc` made while building returns a buffer; `n` counts the calls made so far. -/
def copyString (heap : Nat → Bool) (str : Option String) (n : Nat) : Option String × Nat :=
  match str with
  | none => (none, n)
  | some s => (if heap n then some s else none, n + 1)

/-- The body of the loop `for (JsonObject author : author)` of `makeRelease`. -/
def makeAuthor (heap : Nat → Bool) (author : JsonVariant) (n : Nat) : GithubAuthor × Nat :=
  let (login, n) := copyString heap (author.get "login").asCStr n
  let id := (author.get "id").asInt
  let (node_id, n) := copyString heap (author.get "node_id").asCStr n
  let (avatar_url, n) := copyString heap (author.get "avatar_url").asCStr n
  let (gravatar_id, n) := copyString heap (author.get "gravatar_id").asCStr n
  let (url, n) := copyString heap (author.get "url").asCStr n
  let (html_url, n) := copyString heap (author.get "html_url").asCStr n
  let (followers_url, n) := copyString heap (author.get "followers_url").asCStr n
  let (following_url, n) := copyString heap (author.get "following_url").asCStr n
  let (gists_url, n) := copyString heap (author.get "gists_url").asCStr n
  let (starred_url, n) := copyString heap (author.get "starred_url").asCStr n
  let (subscriptions_url, n) := copyString heap (author.get "subscriptions_url").asCStr n
  let (organizations_url, n) := copyString heap (author.get "organizations_url").asCStr n
  let (repos_url, n) := copyString heap (author.get "repos_url").asCStr n
  let (events_url, n) := copyString heap (author.get "events_url").asCStr n
  let (received_events_url, n) := copyString heap (author.get "received_events_url").asCStr n
  let (type, n) := copyString heap (author.get "type").asCStr n
  let site_admin := (author.get "site_admin").asBool
  ({ login := login, id := id, node_id := node_id, avatar_url := avatar_url,
     gravatar_id := gravatar_id, url := url, html_url := html_url,
     followers_url := followers_url, following_url := following_url,
     gists_url := gists_url, starred_url := starred_url,
     subscriptions_url := subscriptions_url, organizations_url := organizations_url,
     repos_url := repos_url, events_url := events_url,
     received_events_url := received_events_url, type := type, site_admin := site_admin }, n)

/-- The loop `for (JsonObject author : author) { ...; githubRelease.author.push_back(..) }`. -/
def makeAuthors (heap : Nat → Bool) : List JsonVariant → Nat → List GithubAuthor × Nat
  | [], n => ([], n)
  | author :: rest, n =>
    let (a, n) := makeAuthor heap author n
    let (as, n) := makeAuthors heap rest n
    (a :: as, n)

/-- The body of the loop `for (JsonObject asset : assets)` of `makeRelease`. The member
`uploader` is never assigned and stays the empty vector. -/
def makeAsset (heap : Nat → Bool) (asset : JsonVariant) (n : Nat) : GithubReleaseAsset × Nat :=
  let (url, n) := copyString heap (asset.get "url").asCStr n
  let id := (asset.get "id").asInt
  let (node_id, n) := copyString heap (asset.get "node_id").asCStr n
  let (name, n) := copyString heap (asset.get "name").asCStr n
  let (label, n) := copyString heap (asset.get "label").asCStr n
  let (content_type, n) := copyString heap (asset.get "content_type").asCStr n
  let (state, n) := copyString heap (asset.get "state").asCStr n
  let size := (asset.get "size").asInt
  let download_count := (asset.get "download_count").asInt
  let (created_at, n) := copyString heap (asset.get "created_at").asCStr n
  let (updated_at, n) := copyString heap (asset.get "updated_at").asCStr n
  let (browser_download_url, n) := copyString heap (asset.get "browser_download_url").asCStr n
  ({ url := url, browser_download_url := browser_download_url, id := id, node_id := node_id,
     name := name, label := label, state := state, content_type := content_type,
     size := size, download_count := download_count, created_at := created_at,
     updated_at := updated_at, uploader := [] }, n)

/-- The loop `for (JsonObject asset : assets) { ...; githubRelease.assets.push_back(..) }`. -/
def makeAssets (heap : Nat → Bool) : List JsonVariant → Nat → List GithubReleaseAsset × Nat
  | [], n => ([], n)
  | asset :: rest, n =>
    let (a, n) := makeAsset heap asset n
    let (as, n) := makeAssets heap rest n
    (a :: as, n)

/-- `GithubReleaseOTA::makeRelease`. `deserializeJson` is the parser of the JSON
collaborator. Every member of `GithubRelease` is assigned, so the result does not depend on
what the declaration `GithubRelease githubRelease;` left in the members without default
initialiser. -/
def makeRelease (deserializeJson : String → JsonVariant) (heap : Nat → Bool)
    (payload : String) : GithubRelease :=
  let releases := deserializeJson payload
  let n := 0
  let (url, n) := copyString heap (releases.get "url").asCStr n
  let (html_url, n) := copyString heap (releases.get "html_url").asCStr n
  let (assets_url, n) := copyString heap (releases.get "assets_url").asCStr n
  let (upload_url, n) := copyString heap (releases.get "upload_url").asCStr n
  let (tarball_url, n) := copyString heap (releases.get "tarball_url").asCStr n
  let (zipball_url, n) := copyString heap (releases.get "zipball_url").asCStr n
  let id := (releases.get "id").asInt
  let (node_id, n) := copyString heap (releases.get "node_id").asCStr n
  let (tag_name, n) := copyString heap (releases.get "tag_name").asCStr n
  let (target_commitish, n) := copyString heap (releases.get "target_commitish").asCStr n
  let (name, n) := copyString heap (releases.get "name").asCStr n
  let (body, n) := copyString heap (releases.get "body").asCStr n
  let draft := (releases.get "draft").asBool
  let prerelease := (releases.get "prerelease").asBool
  let (created_at, n) := copyString heap (releases.get "created_at").asCStr n
  let (published_at, n) := copyString heap (releases.get "published_at").asCStr n
  let (author, n) := makeAuthors heap (releases.get "author").asArray n
  let (assets, _) := makeAssets heap (releases.get "assets").asArray n
  { url := url, html_url := html_url, assets_url := assets_url, upload_url := upload_url,
    tarball_url := tarball_url, zipball_url := zipball_url, id := id, node_id := node_id,
    tag_name := tag_name, target_commitish := target_commitish, name := name, body := body,
    draft := draft, prerelease := prerelease, created_at := created_at,
    published_at := published_at, assets := assets, author := author }

/-- The text fields of an author, each with the key it is built from. -/
def GithubAuthor.textFields (a : GithubAuthor) : List (String × Option String) :=
  [("login", a.login), ("node_id", a.node_id), ("avatar_url", a.avatar_url),
   ("gravatar_id", a.gravatar_id), ("url", a.url), ("html_url", a.html_url),
   ("followers_url", a.followers_url), ("following_url", a.following_url),
   ("gists_url", a.gists_url), ("starred_url", a.starred_url),
   ("subscriptions_url", a.subscriptions_url), ("organizations_url", a.organizations_url),
   ("repos_url", a.repos_url), ("events_url", a.events_url),
   ("received_events_url", a.received_events_url), ("type", a.type)]

/-- The text fields of an asset, each with the key it is built from. -/
def GithubReleaseAsset.textFields (a : GithubReleaseAsset) : List (String × Option String) :=
  [("url", a.url), ("node_id", a.node_id), ("name", a.name), ("label", a.label),
   ("content_type", a.content_type), ("state", a.state), ("created_at", a.created_at),
   ("updated_at", a.updated_at), ("browser_download_url", a.browser_download_url)]

/-- The text fields of a release, each with the key it is built from. -/
def GithubRelease.textFields (r : GithubRelease) : List (String × Option String) :=
  [("url", r.url), ("html_url", r.html_url), ("assets_url", r.assets_url),
   ("upload_url", r.upload_url), ("tarball_url", r.tarball_url),
   ("zipball_url", r.zipball_url), ("node_id", r.node_id), ("tag_name", r.tag_name),
   ("target_commitish", r.target_commitish), ("name", r.name), ("body", r.body),
   ("created_at", r.created_at), ("published_at", r.published_at)]

/-- Whether the document is an object with a member of that key. -/
def JsonVariant.hasKey (v : JsonVariant) (key : String) : Bool :=
  match v with
  | JsonVariant.obj members => (members.lookup key).isSome
  | _ => false

/-! ## Metadata disposer -/

/-- The aggregate a text field belongs to: the release, its `i`-th author, its `i`-th
asset, or the `j`-th author of the uploader list of its `i`-th asset. -/
inductive Owner where
  | release
  | author (i : Nat)
  | asset (i : Nat)
  | uploader (i j : Nat)
  deriving DecidableEq, Repr

/-- One call `free((void*)x.field)`. -/
structure FreeCall where
  owner : Owner
  field : String
  deriving DecidableEq, Repr

/-- The statement `if (x.field != NULL) free((void*)x.field);`. -/
def freeField (o : Owner) (field : String) (p : Option String) : List FreeCall :=
  if p ≠ none then [⟨o, field⟩] else []

/-- `GithubReleaseOTA::freeAuthor`; `o` names the author the reference designates. -/
def freeAuthor (o : Owner) (author : GithubAuthor) : List FreeCall :=
  freeField o "login" author.login ++ freeField o "node_id" author.node_id
    ++ freeField o "avatar_url" author.avatar_url
    ++ freeField o "gravatar_id" author.gravatar_id
    ++ freeField o "url" author.url ++ freeField o "html_url" author.html_url
    ++ freeField o "followers_url" author.followers_url
    ++ freeField o "following_url" author.following_url
    ++ freeField o "gists_url" author.gists_url
    ++ freeField o "starred_url" author.starred_url
    ++ freeField o "subscriptions_url" author.subscriptions_url
    ++ freeField o "organizations_url" author.organizations_url
    ++ freeField o "repos_url" author.repos_url
    ++ freeField o "events_url" author.events_url
    ++ freeField o "received_events_url" author.received_events_url
    ++ freeField o "type" author.type

/-- `GithubReleaseOTA::freeReleaseAsset`; `o` names the asset the reference designates. -/
def freeReleaseAsset (o : Owner) (asset : GithubReleaseAsset) : List FreeCall :=
  freeField o "url" asset.url ++ freeField o "node_id" asset.node_id
    ++ freeField o "name" asset.name ++ freeField o "label" asset.label
    ++ freeField o "content_type" asset.content_type ++ freeField o "state" asset.state
    ++ freeField o "created_at" asset.created_at ++ freeField o "updated_at" asset.updated_at
    ++ freeField o "browser_download_url" asset.browser_download_url

/-- The loop `for (auto& author : release.author) freeAuthor(author);`, the first element
being the `i`-th author. -/
def freeAuthorsFrom : Nat → List GithubAuthor → List FreeCall
  | _, [] => []
  | i, a :: rest => freeAuthor (Owner.author i) a ++ freeAuthorsFrom (i + 1) rest

/-- The loop `for (auto& asset : release.assets) freeReleaseAsset(asset);`, the first
element being the `i`-th asset. -/
def freeAssetsFrom : Nat → List GithubReleaseAsset → List FreeCall
  | _, [] => []
  | i, a :: rest => freeReleaseAsset (Owner.asset i) a ++ freeAssetsFrom (i + 1) rest

/-- `GithubReleaseOTA::freeRelease`: the calls of `free`, in program order. -/
def freeRelease (release : GithubRelease) : List FreeCall :=
  freeField Owner.release "url" release.url
    ++ freeField Owner.release "html_url" release.html_url
    ++ freeField Owner.release "assets_url" release.assets_url
    ++ freeField Owner.release "upload_url" release.upload_url
    ++ freeField Owner.release "tarball_url" release.tarball_url
    ++ freeField Owner.release "zipball_url" release.zipball_url
    ++ freeField Owner.release "node_id" release.node_id
    ++ freeField Owner.release "tag_name" release.tag_name
    ++ freeField Owner.release "target_commitish" release.target_commitish
    ++ freeField Owner.release "name" release.name
    ++ freeField Owner.release "body" release.body
    ++ freeField Owner.release "created_at" release.created_at
    ++ freeField Owner.release "published_at" release.published_at
    ++ freeAuthorsFrom 0 release.author
    ++ freeAssetsFrom 0 release.assets

/-! ## What a release owns -/

/-- What `connectGithub` hands back: the status stored through `code` and the body. -/
structure HttpReply where
  code : Int
  payload : String

/-- The replies of the collaborators to one metadata query: the value left in the local
`release` by its declaration, whether `malloc(urlSize)` returns a buffer, the reply of
`connectGithub`, and the allocator during `makeRelease`. -/
structure Query where
  indeterminate : ReleaseIndeterminate
  urlAllocated : Bool
  reply : HttpReply
  heap : Nat → Bool

/-- `GithubReleaseOTA::getLatestRelease`. -/
def getLatestRelease (deserializeJson : String → JsonVariant) (q : Query) : GithubRelease :=
  let release := GithubRelease.declared q.indeterminate
  if q.urlAllocated then
    if q.reply.code = HTTP_CODE_OK then makeRelease deserializeJson q.heap q.reply.payload
    else release
  else release

/-- `GithubReleaseOTA::getReleaseByTagName`; a null `tagName` returns the declared release
before any query is made. -/
def getReleaseByTagName (deserializeJson : String → JsonVariant) (q : Query)
    (tagName : Option String) : GithubRelease :=
  let release := GithubRelease.declared q.indeterminate
  match tagName with
  | none => release
  | some _ =>
    if q.urlAllocated then
      if q.reply.code = HTTP_CODE_OK then makeRelease deserializeJson q.heap q.reply.payload
      else release
    else release

/-- The assignment of a `const char*` to an Arduino `String`: a null pointer gives the
empty string. -/
def toArduinoString (p : Option String) : String := p.getD ""

/-- `GithubReleaseOTA::getLatestReleaseTag`: the returned tag and the calls of `free` made
by `freeRelease(release)`. -/
def getLatestReleaseTag (deserializeJson : String → JsonVariant) (q : Query) :
    String × List FreeCall :=
  let release := getLatestRelease deserializeJson q
  let tag := if release.name ≠ none then toArduinoString release.tag_name else ""
  (tag, freeRelease release)

/-- The library function `strcmp`, whose arguments must not be null: `none` stands for the
undefined behaviour of a call with a null argument; otherwise the result is 0 exactly when
the two strings are equal. -/
def strcmp (a b : Option String) : Option Int :=
  match a, b with
  | some x, some y => some (if x = y then 0 else if x < y then -1 else 1)
  | _, _ => none

/-- The loop `for (GithubReleaseAsset a : release.assets)` of `getAssetByname`, followed by
`return asset;`. -/
def getAssetBynameLoop (asset : GithubReleaseAsset) (name : Option String) :
    List GithubReleaseAsset → Option GithubReleaseAsset
  | [] => some asset
  | a :: rest =>
    match strcmp a.name name with
    | none => none
    | some c => if c = 0 then some a else getAssetBynameLoop asset name rest

/-- `GithubReleaseOTA::getAssetByname`; `none` when a call of `strcmp` is undefined. -/
def getAssetByname (u : AssetIndeterminate) (release : GithubRelease)
    (name : Option String) : Option GithubReleaseAsset :=
  getAssetBynameLoop (GithubReleaseAsset.declared u) name release.assets

/-- `GithubReleaseOTA::flashFirmware(GithubReleaseAsset)`. -/
def flashFirmwareAsset (e : Engine) (d : Download) (sink : UpdateSink)
    (asset : GithubReleaseAsset) : Option (Int × List Event) :=
  flashByAssetId e d sink asset.id FLASH_TYPE_FIRMWARE

/-- `GithubReleaseOTA::flashFirmware(GithubRelease, const char*)`. -/
def flashFirmware (e : Engine) (d : Download) (sink : UpdateSink) (u : AssetIndeterminate)
    (release : GithubRelease) (name : Option String) : Option (Int × List Event) :=
  match getAssetByname u release name with
  | none => none
  | some asset =>
    if asset.browser_download_url = none then some (OTA_NULL_URL, [])
    else flashByAssetId e d sink asset.id FLASH_TYPE_FIRMWARE

/-- `GithubReleaseOTA::flashSpiffs(GithubReleaseAsset)`. -/
def flashSpiffsAsset (e : Engine) (d : Download) (sink : UpdateSink)
    (asset : GithubReleaseAsset) : Option (Int × List Event) :=
  flashByAssetId e d sink asset.id FLASH_TYPE_SPIFFS

/-- `GithubReleaseOTA::flashSpiffs(GithubRelease, const char*)`. -/
def flashSpiffs (e : Engine) (d : Download) (sink : UpdateSink) (u : AssetIndeterminate)
    (release : GithubRelease) (name : Option String) : Option (Int × List Event) :=
  match getAssetByname u release name with
  | none => none
  | some asset =>
    if asset.browser_download_url = none then some (OTA_NULL_URL, [])
    else flashByAssetId e d sink asset.id FLASH_TYPE_SPIFFS

/-! ## Observations on a trace -/

/-- The lengths offered to `Update.write`, in order. -/
def writeLengths (tr : List Event) : List Nat :=
  tr.filterMap (fun ev => match ev with | Event.updateWrite n => some n | _ => none)

/-- The arguments the progress callback received, in order. -/
def progressCalls (tr : List Event) : List Int :=
  tr.filterMap (fun ev => match ev with | Event.progressCallback p => some p | _ => none)

/-- A call to the update sink (`begin`, `write` or `end`). -/
def Event.isSinkCall : Event → Bool
  | Event.updateBegin _ _ => true
  | Event.updateWrite _ => true
  | Event.updateEnd => true
  | _ => false

/-- A call that opens or releases the connection or the URL buffer. -/
def Event.isResourceCall : Event → Bool
  | Event.mallocUrl => true
  | Event.clientBegin _ _ => true
  | Event.clientEnd => true
  | Event.freeUrl => true
  | _ => false

/-- A call made from inside the copy loop. -/
def Event.isLoopCall : Event → Bool
  | Event.streamAvailable => true
  | Event.streamReadBytes _ => true
  | Event.updateWrite _ => true
  | Event.progressCallback _ => true
  | Event.delay => true
  | _ => false

/-- The non-empty chunks the stream script hands over, in order: the lengths offered to
`Update.write` as long as the loop runs. -/
def offered (polls : List Poll) : List Nat :=
  (polls.map readSizeOf).filter (fun r => 0 < r)

/-- The value of `written` after chunks of the given lengths have been written, each
accepted in full, starting from `written` (`written += readSize` in `size_t`). -/
def writtenAfter (written : Nat) (chunks : List Nat) : Nat :=
  chunks.foldl (fun w r => (w + r) % 2 ^ 32) written

/-- The percentages reported while chunks of the given lengths are copied, each accepted
in full, from the state `written`, `lastProgress` on: after each chunk the percentage is
computed as in the loop body and reported when it differs from `lastProgress`. -/
def reportsOf (size : Int) : List Nat → Nat → Int → List Int
  | [], _, _ => []
  | r :: rs, written, lastProgress =>
    if written < toSizeT size then
      let written1 := (written + r) % 2 ^ 32
      let progress := progressOf written1 size
      (if progress ≠ lastProgress then [progress] else []) ++ reportsOf size rs written1 progress
    else []

/-! ## Sample inputs -/

/-- An engine with a progress callback set, no token and no CA. -/
def sampleEngine : Engine :=
  { releaseUrl := some "https://api.github.com/repos/owner/repo/releases", token := none,
    ca := none, progressCallback := true }

/-- A sink that accepts `begin`, every `write` in full, and `end`. -/
def acceptingSink : UpdateSink :=
  { begin := fun _ _ => true, write := fun _ n => n, end_ := true }

/-- A sink that rejects `begin`. -/
def rejectingBeginSink : UpdateSink :=
  { begin := fun _ _ => false, write := fun _ n => n, end_ := true }

/-- A sink that accepts everything but `end`. -/
def rejectingEndSink : UpdateSink :=
  { begin := fun _ _ => true, write := fun _ n => n, end_ := false }

/-- A sink whose third call of `write` accepts nothing. -/
def thirdWriteRejectingSink : UpdateSink :=
  { begin := fun _ _ => true, write := fun i n => if i = 2 then 0 else n, end_ := true }

/-- A download of declared size 10240 delivered as ten chunks of 1024 bytes. -/
def download10240 : Download :=
  { urlAllocated := true, status := 200, size := 10240,
    polls := List.replicate 10 { available := 1024, readBytes := 1024 } }

/-- A download answered with status 404. -/
def download404 : Download :=
  { urlAllocated := true, status := 404, size := 0, polls := [] }

/-- A parser that answers every payload with the document `doc`. -/
def parseAs (doc : JsonVariant) : String → JsonVariant := fun _ => doc

/-- A release payload for the tag "v1.2.3" with a title and two assets. -/
def samplePayload : JsonVariant :=
  JsonVariant.obj
    [("id", JsonVariant.int 5), ("tag_name", JsonVariant.str "v1.2.3"),
     ("name", JsonVariant.str "Release 1.2.3"),
     ("assets", JsonVariant.arr
        [JsonVariant.obj
           [("id", JsonVariant.int 11), ("name", JsonVariant.str "firmware.bin"),
            ("browser_download_url", JsonVariant.str "https://example.org/firmware.bin")],
         JsonVariant.obj
           [("id", JsonVariant.int 12), ("name", JsonVariant.str "spiffs.bin"),
            ("browser_download_url", JsonVariant.str "https://example.org/spiffs.bin")]])]

/-- A release payload that carries a `tag_name` and no `name`. -/
def untitledPayload : JsonVariant :=
  JsonVariant.obj [("id", JsonVariant.int 5), ("tag_name", JsonVariant.str "v1.2.3")]

/-- A release payload whose only asset has no `name`. -/
def unnamedAssetPayload : JsonVariant :=
  JsonVariant.obj
    [("tag_name", JsonVariant.str "v1.2.3"),
     ("assets", JsonVariant.arr
        [JsonVariant.obj
           [("id", JsonVariant.int 11),
            ("browser_download_url", JsonVariant.str "https://example.org/firmware.bin")]])]

/-- An allocator that always returns a buffer. -/
def heapOk : Nat → Bool := fun _ => true

/-- An allocator that never returns a buffer. -/
def heapExhausted : Nat → Bool := fun _ => false

/-- Storage in which the uninitialised members of a `GithubReleaseAsset` read as 0. -/
def zeroAsset : AssetIndeterminate := { id := 0, size := 0, download_count := 0 }

/-- A latest-release query answered with status 200 and a payload. -/
def query200 : Query :=
  { indeterminate := { id := 0, tag_name := none, draft := false, prerelease := false },
    urlAllocated := true, reply := { code := 200, payload := "" }, heap := heapOk }

/-- A latest-release query answered with status 404, the storage of the local `release`
holding a non-zero word where `tag_name` lies. -/
def query404 : Query :=
  { indeterminate :=
      { id := 0, tag_name := some "stale bytes", draft := false, prerelease := false },
    urlAllocated := true, reply := { code := 404, payload := "" }, heap := heapOk }

/-- A download of declared size 43008000 delivered as 42000 chunks of 1024 bytes. -/
def download43008000 : Download :=
  { urlAllocated := true, status := 200, size := 43008000,
    polls := List.replicate 42000 { available := 1024, readBytes := 1024 } }

/-! ## Lemmas on the copy loop -/

theorem toSizeT_lt (i : Int) : toSizeT i < 2 ^ 32 := by
  unfold toSizeT
  have h := Int.emod_lt_of_pos i (show (0 : Int) < 2 ^ 32 by norm_num)
  have h0 := Int.emod_nonneg i (show (2 : Int) ^ 32 ≠ 0 by norm_num)
  omega

theorem toSizeT_of_nonneg (i : Int) (h0 : 0 ≤ i) (h1 : i < 2 ^ 31) : toSizeT i = i.toNat := by
  unfold toSizeT
  rw [Int.emod_eq_of_lt h0 (by omega)]

theorem readSizeOf_le (p : Poll) : readSizeOf p ≤ 1024 := by
  unfold readSizeOf chunkSize
  split <;> omega

theorem reportProgress_isLoopCall (cb : Bool) (p l : Int) :
    ∀ ev ∈ reportProgress cb p l, ev.isLoopCall = true := by
  intro ev hev
  unfold reportProgress at hev
  split at hev
  · split at hev
    · simp at hev; subst hev; rfl
    · simp at hev
  · simp at hev

theorem writeLengths_append (xs ys : List Event) :
    writeLengths (xs ++ ys) = writeLengths xs ++ writeLengths ys := by
  simp [writeLengths]

theorem progressCalls_append (xs ys : List Event) :
    progressCalls (xs ++ ys) = progressCalls xs ++ progressCalls ys := by
  simp [progressCalls]

theorem writeLengths_reportProgress (cb : Bool) (p l : Int) :
    writeLengths (reportProgress cb p l) = [] := by
  unfold reportProgress
  split
  · split <;> rfl
  · rfl

/-- The loop body in a turn where nothing is read. -/
theorem loopBody_idle (cb : Bool) (sink : UpdateSink) (size : Int) (p : Poll)
    (written : Nat) (last : Int) (writes : Nat) (h : readSizeOf p = 0) :
    ∃ last1 evs, loopBody cb sink size p written last writes
        = Turn.next written last1 writes evs
      ∧ writeLengths evs = [] ∧ ∀ ev ∈ evs, ev.isLoopCall = true := by
  unfold readSizeOf at h
  unfold loopBody
  by_cases ha : 0 < toSizeT p.available
  · simp only [ha, if_true] at h ⊢
    have hr : ¬ 0 < min p.readBytes (min (toSizeT p.available) chunkSize) := by omega
    simp only [hr, if_false]
    refine ⟨_, _, rfl, ?_, ?_⟩
    · simp only [writeLengths_append, writeLengths_reportProgress]
      rfl
    · intro ev hev
      simp only [List.mem_append, List.mem_cons, List.mem_singleton, List.not_mem_nil,
        or_false] at hev
      rcases hev with (h1 | h1) | h1
      · rcases h1 with h1 | h1 <;> subst h1 <;> rfl
      · exact reportProgress_isLoopCall _ _ _ _ h1
      · subst h1; rfl
  · simp only [ha, if_false]
    refine ⟨_, _, rfl, by simp [writeLengths], ?_⟩
    intro ev hev
    simp at hev
    rcases hev with h1 | h1 <;> subst h1 <;> rfl

/-- The loop body in a turn where a chunk is read and the sink accepts it in full. -/
theorem loopBody_accept (cb : Bool) (sink : UpdateSink) (size : Int) (p : Poll)
    (written : Nat) (last : Int) (writes : Nat) (h : 0 < readSizeOf p)
    (hw : sink.write writes (readSizeOf p) = readSizeOf p) :
    ∃ evs, loopBody cb sink size p written last writes
        = Turn.next ((written + readSizeOf p) % 2 ^ 32)
            (progressOf ((written + readSizeOf p) % 2 ^ 32) size) (writes + 1) evs
      ∧ writeLengths evs = [readSizeOf p]
      ∧ progressCalls evs = progressCalls
          (reportProgress cb (progressOf ((written + readSizeOf p) % 2 ^ 32) size) last)
      ∧ ∀ ev ∈ evs, ev.isLoopCall = true := by
  unfold readSizeOf at h hw ⊢
  unfold loopBody
  by_cases ha : 0 < toSizeT p.available
  · simp only [ha, if_true] at h hw ⊢
    simp only [h, if_true, hw, ne_eq, not_true_eq_false, if_false]
    refine ⟨_, rfl, ?_, ?_, ?_⟩
    · simp only [writeLengths_append, writeLengths_reportProgress]
      rfl
    · simp [progressCalls]
    · intro ev hev
      simp only [List.mem_append, List.mem_cons, List.mem_singleton, List.not_mem_nil,
        or_false] at hev
      rcases hev with ((h1 | h1) | h1) | h1
      · rcases h1 with h1 | h1 <;> subst h1 <;> rfl
      · subst h1; rfl
      · exact reportProgress_isLoopCall _ _ _ _ h1
      · subst h1; rfl
  · simp [ha] at h

/-- The loop body in a turn where a chunk is read and the sink returns another count. -/
theorem loopBody_reject (cb : Bool) (sink : UpdateSink) (size : Int) (p : Poll)
    (written : Nat) (last : Int) (writes : Nat) (h : 0 < readSizeOf p)
    (hw : sink.write writes (readSizeOf p) ≠ readSizeOf p) :
    ∃ evs, loopBody cb sink size p written last writes = Turn.abort evs
      ∧ writeLengths evs = [readSizeOf p] ∧ progressCalls evs = []
      ∧ ∀ ev ∈ evs, ev.isLoopCall = true := by
  unfold readSizeOf at h hw ⊢
  unfold loopBody
  by_cases ha : 0 < toSizeT p.available
  · simp only [ha, if_true] at h hw ⊢
    simp only [h, if_true, hw, ne_eq, not_false_eq_true]
    refine ⟨_, rfl, by simp [writeLengths], by simp [progressCalls], ?_⟩
    intro ev hev
    simp at hev
    rcases hev with h1 | h1 | h1 <;> subst h1 <;> rfl
  · simp [ha] at h

/-- Every call recorded by the copy loop is a call made from inside the loop. -/
theorem copyLoop_isLoopCall (cb : Bool) (sink : UpdateSink) (size : Int) :
    ∀ (polls : List Poll) (written : Nat) (last : Int) (writes : Nat) (b : Bool)
      (evs : List Event),
      copyLoop cb sink size polls written last writes = some (b, evs) →
      ∀ ev ∈ evs, ev.isLoopCall = true := by
  intro polls
  induction polls with
  | nil =>
    intro written last writes b evs h
    unfold copyLoop at h
    split at h
    · simp at h
    · simp only [Option.some.injEq, Prod.mk.injEq] at h
      obtain ⟨-, rfl⟩ := h
      simp
  | cons p ps ih =>
    intro written last writes b evs h
    unfold copyLoop at h
    split at h
    · by_cases hr : 0 < readSizeOf p
      · by_cases hw : sink.write writes (readSizeOf p) = readSizeOf p
        · obtain ⟨evs1, hb, -, -, hl⟩ :=
            loopBody_accept cb sink size p written last writes hr hw
          rw [hb] at h
          simp only [Option.map_eq_some', Prod.mk.injEq] at h
          obtain ⟨r, hrec, -, hevs⟩ := h
          intro ev hev
          rw [← hevs] at hev
          rcases List.mem_append.mp hev with h1 | h1
          · exact hl ev h1
          · exact ih _ _ _ r.1 r.2 hrec ev h1
        · obtain ⟨evs1, hb, -, -, hl⟩ :=
            loopBody_reject cb sink size p written last writes hr hw
          rw [hb] at h
          simp only [Option.some.injEq, Prod.mk.injEq] at h
          rw [← h.2]
          exact hl
      · obtain ⟨last1, evs1, hb, -, hl⟩ :=
          loopBody_idle cb sink size p written last writes (by omega)
        rw [hb] at h
        simp only [Option.map_eq_some', Prod.mk.injEq] at h
        obtain ⟨r, hrec, -, hevs⟩ := h
        intro ev hev
        rw [← hevs] at hev
        rcases List.mem_append.mp hev with h1 | h1
        · exact hl ev h1
        · exact ih _ _ _ r.1 r.2 hrec ev h1
    · simp only [Option.some.injEq, Prod.mk.injEq] at h
      obtain ⟨-, rfl⟩ := h
      simp

/-- With a sink that accepts in full every chunk it is offered and a stream script that
hands over at least the declared size, the copy loop is left through its condition, and the
bytes written are the chunks read up to that point. -/
theorem copyLoop_accept_all (cb : Bool) (sink : UpdateSink) (size : Int)
    (hsz : toSizeT size + 1024 ≤ 2 ^ 32) :
    ∀ (polls : List Poll) (written : Nat) (last : Int) (writes : Nat),
      (∀ i, i < (offered polls).length →
        sink.write (writes + i) ((offered polls).getD i 0) = (offered polls).getD i 0) →
      toSizeT size ≤ written + (polls.map readSizeOf).sum →
      ∃ evs, copyLoop cb sink size polls written last writes = some (true, evs)
        ∧ toSizeT size ≤ written + (writeLengths evs).sum
        ∧ (writeLengths evs).sum ≤ (polls.map readSizeOf).sum := by
  intro polls
  induction polls with
  | nil =>
    intro written last writes _ h
    simp only [List.map_nil, List.sum_nil, Nat.add_zero] at h
    refine ⟨[], ?_, by simpa [writeLengths] using h, by simp [writeLengths]⟩
    unfold copyLoop
    simp [Nat.not_lt.mpr h]
  | cons p ps ih =>
    intro written last writes hacc h
    simp only [List.map_cons, List.sum_cons] at h
    unfold copyLoop
    by_cases hlt : written < toSizeT size
    · simp only [hlt, if_true]
      have hle := readSizeOf_le p
      by_cases hr : 0 < readSizeOf p
      · have hoff : offered (p :: ps) = readSizeOf p :: offered ps := by
          simp [offered, hr]
        rw [hoff] at hacc
        have h0 := hacc 0 (by simp)
        simp only [Nat.add_zero, List.getD_cons_zero] at h0
        obtain ⟨evs1, hb, hwl, -, -⟩ :=
          loopBody_accept cb sink size p written last writes hr h0
        rw [hb]
        have hmod : (written + readSizeOf p) % 2 ^ 32 = written + readSizeOf p :=
          Nat.mod_eq_of_lt (by omega)
        rw [hmod]
        obtain ⟨evs2, hrec, h1, h2⟩ :=
          ih (written + readSizeOf p) (progressOf (written + readSizeOf p) size) (writes + 1)
            (by
              intro i hi
              have := hacc (i + 1) (by simpa using hi)
              simpa [Nat.add_assoc, Nat.add_comm 1 i] using this)
            (by omega)
        refine ⟨evs1 ++ evs2, by simp [hrec], ?_, ?_⟩
        · rw [writeLengths_append, hwl]; simp; omega
        · rw [writeLengths_append, hwl]; simp; omega
      · have hoff : offered (p :: ps) = offered ps := by
          simp [offered, hr]
        rw [hoff] at hacc
        obtain ⟨last1, evs1, hb, hwl, -⟩ :=
          loopBody_idle cb sink size p written last writes (by omega)
        rw [hb]
        obtain ⟨evs2, hrec, h1, h2⟩ := ih written last1 writes hacc (by omega)
        refine ⟨evs1 ++ evs2, by simp [hrec], ?_, ?_⟩
        · rw [writeLengths_append, hwl]; simpa using h1
        · rw [writeLengths_append, hwl]; simp; omega
    · simp only [hlt, if_false]
      exact ⟨[], rfl, by simp [writeLengths]; omega, by simp [writeLengths]⟩

/-- When the sink accepts the next `j` chunks in full and returns another count for the
chunk after them, and `written < size` holds each time one of these `j + 1` chunks is about
to be read, the copy loop is left by `return OTA_WRITE_ERROR` after exactly `j + 1` calls
of `Update.write`. -/
theorem copyLoop_reject_at (cb : Bool) (sink : UpdateSink) (size : Int) :
    ∀ (polls : List Poll) (written : Nat) (last : Int) (writes j : Nat),
      j < (offered polls).length →
      (∀ i, i < j →
        sink.write (writes + i) ((offered polls).getD i 0) = (offered polls).getD i 0) →
      sink.write (writes + j) ((offered polls).getD j 0) ≠ (offered polls).getD j 0 →
      (∀ i, i ≤ j → writtenAfter written ((offered polls).take i) < toSizeT size) →
      ∃ evs, copyLoop cb sink size polls written last writes = some (false, evs)
        ∧ writeLengths evs = (offered polls).take (j + 1) := by
  intro polls
  induction polls with
  | nil =>
    intro written last writes j hj
    simp [offered] at hj
  | cons p ps ih =>
    intro written last writes j hj hacc hrej hsz
    have hlt : written < toSizeT size := by
      simpa [writtenAfter] using hsz 0 (Nat.zero_le j)
    unfold copyLoop
    simp only [hlt, if_true]
    by_cases hr : 0 < readSizeOf p
    · have hoff : offered (p :: ps) = readSizeOf p :: offered ps := by
        simp [offered, hr]
      rw [hoff] at hj hacc hrej hsz ⊢
      cases j with
      | zero =>
        simp only [Nat.add_zero, List.getD_cons_zero] at hrej
        obtain ⟨evs1, hb, hwl, -, -⟩ :=
          loopBody_reject cb sink size p written last writes hr hrej
        rw [hb]
        exact ⟨evs1, rfl, by simpa using hwl⟩
      | succ j =>
        have h0 := hacc 0 (Nat.succ_pos j)
        simp only [Nat.add_zero, List.getD_cons_zero] at h0
        obtain ⟨evs1, hb, hwl, -, -⟩ :=
          loopBody_accept cb sink size p written last writes hr h0
        rw [hb]
        obtain ⟨evs2, hrec, hwl2⟩ :=
          ih ((written + readSizeOf p) % 2 ^ 32)
            (progressOf ((written + readSizeOf p) % 2 ^ 32) size)
            (writes + 1) j (by simpa using hj)
            (by
              intro i hi
              have := hacc (i + 1) (by omega)
              simpa [Nat.add_assoc, Nat.add_comm 1 i] using this)
            (by simpa [Nat.add_assoc, Nat.add_comm 1 j] using hrej)
            (by
              intro i hi
              have := hsz (i + 1) (by omega)
              simpa [writtenAfter] using this)
        refine ⟨evs1 ++ evs2, by show Option.map _ _ = _; rw [hrec]; rfl, ?_⟩
        rw [writeLengths_append, hwl, hwl2]
        simp
    · have hoff : offered (p :: ps) = offered ps := by
        simp [offered, hr]
      rw [hoff] at hj hacc hrej hsz ⊢
      obtain ⟨last1, evs1, hb, hwl, -⟩ :=
        loopBody_idle cb sink size p written last writes (by omega)
      rw [hb]
      obtain ⟨evs2, hrec, hwl2⟩ := ih written last1 writes j hj hacc hrej hsz
      refine ⟨evs1 ++ evs2, by simp [hrec], ?_⟩
      rw [writeLengths_append, hwl, hwl2]
      simp

/-- When the sink accepts in full every chunk it is offered and `written` reaches the
declared size after some number of chunks of the stream script, the copy loop is left
through its condition. -/
theorem copyLoop_complete (cb : Bool) (sink : UpdateSink) (size : Int) :
    ∀ (polls : List Poll) (written : Nat) (last : Int) (writes : Nat),
      (∀ i, i < (offered polls).length →
        sink.write (writes + i) ((offered polls).getD i 0) = (offered polls).getD i 0) →
      (∃ i, toSizeT size ≤ writtenAfter written ((offered polls).take i)) →
      ∃ evs, copyLoop cb sink size polls written last writes = some (true, evs) := by
  intro polls
  induction polls with
  | nil =>
    intro written last writes _ hreach
    obtain ⟨i, hi⟩ := hreach
    simp only [offered, List.map_nil, List.filter_nil, List.take_nil, writtenAfter,
      List.foldl_nil] at hi
    unfold copyLoop
    exact ⟨[], by simp [Nat.not_lt.mpr hi]⟩
  | cons p ps ih =>
    intro written last writes hacc hreach
    unfold copyLoop
    by_cases hlt : written < toSizeT size
    · simp only [hlt, if_true]
      by_cases hr : 0 < readSizeOf p
      · have hoff : offered (p :: ps) = readSizeOf p :: offered ps := by
          simp [offered, hr]
        rw [hoff] at hacc hreach
        have h0 := hacc 0 (by simp)
        simp only [Nat.add_zero, List.getD_cons_zero] at h0
        obtain ⟨evs1, hb, -, -, -⟩ :=
          loopBody_accept cb sink size p written last writes hr h0
        rw [hb]
        obtain ⟨i, hi⟩ := hreach
        cases i with
        | zero =>
          simp only [List.take_zero, writtenAfter, List.foldl_nil] at hi
          omega
        | succ i =>
          obtain ⟨evs2, hrec⟩ :=
            ih ((written + readSizeOf p) % 2 ^ 32)
              (progressOf ((written + readSizeOf p) % 2 ^ 32) size) (writes + 1)
              (by
                intro j hj
                have := hacc (j + 1) (by simpa using hj)
                simpa [Nat.add_assoc, Nat.add_comm 1 j] using this)
              ⟨i, by simpa [writtenAfter] using hi⟩
          exact ⟨evs1 ++ evs2, by show Option.map _ _ = _; rw [hrec]; rfl⟩
      · have hoff : offered (p :: ps) = offered ps := by
          simp [offered, hr]
        rw [hoff] at hacc hreach
        obtain ⟨last1, evs1, hb, -, -⟩ :=
          loopBody_idle cb sink size p written last writes (by omega)
        rw [hb]
        obtain ⟨evs2, hrec⟩ := ih written last1 writes hacc hreach
        exact ⟨evs1 ++ evs2, by simp [hrec]⟩
    · simp only [hlt, if_false]
      exact ⟨[], rfl⟩

theorem isLoopCall_not_resource (ev : Event) (h : ev.isLoopCall = true) :
    ev.isResourceCall = false := by
  cases ev <;> simp_all [Event.isLoopCall, Event.isResourceCall]

theorem isLoopCall_ne_updateEnd (ev : Event) (h : ev.isLoopCall = true) :
    ev ≠ Event.updateEnd := by
  cases ev <;> simp_all [Event.isLoopCall]

theorem requestEvents_not_sink (e : Engine) (assetId : Int) :
    ∀ ev ∈ requestEvents e assetId, ev.isSinkCall = false := by
  intro ev hev
  unfold requestEvents at hev
  simp only [List.mem_append, List.mem_cons, List.mem_singleton, List.not_mem_nil,
    or_false] at hev
  rcases hev with ((h | h) | h) | (h | h | h | h)
  · subst h; rfl
  · subst h; rfl
  · split at h
    · simp at h; subst h; rfl
    · simp at h
  · subst h; rfl
  · subst h; rfl
  · subst h; rfl
  · subst h; rfl

/-- The run of `flashByAssetId` when the GET status is not 200. -/
theorem flashByAssetId_connect (e : Engine) (d : Download) (sink : UpdateSink)
    (assetId : Int) (flashType : FlashType) (halloc : d.urlAllocated = true)
    (hstatus : d.status ≠ HTTP_CODE_OK) :
    flashByAssetId e d sink assetId flashType
      = some (OTA_CONNECT_ERROR, requestEvents e assetId ++ releaseEvents) := by
  simp [flashByAssetId, halloc, hstatus]

/-- The run of `flashByAssetId` when `Update.begin` rejects. -/
theorem flashByAssetId_begin (e : Engine) (d : Download) (sink : UpdateSink)
    (assetId : Int) (flashType : FlashType) (halloc : d.urlAllocated = true)
    (hstatus : d.status = HTTP_CODE_OK) (hbegin : sink.begin d.size flashType = false) :
    flashByAssetId e d sink assetId flashType
      = some (OTA_BEGIN_ERROR,
          requestEvents e assetId ++ beginEvents d.size flashType ++ releaseEvents) := by
  simp [flashByAssetId, halloc, hstatus, hbegin]

/-- The run of `flashByAssetId` when the copy loop is left by `return OTA_WRITE_ERROR`. -/
theorem flashByAssetId_write (e : Engine) (d : Download) (sink : UpdateSink)
    (assetId : Int) (flashType : FlashType) (halloc : d.urlAllocated = true)
    (hstatus : d.status = HTTP_CODE_OK) (hbegin : sink.begin d.size flashType = true)
    (evs : List Event)
    (hloop : copyLoop e.progressCallback sink d.size d.polls 0 (-1) 0 = some (false, evs)) :
    flashByAssetId e d sink assetId flashType
      = some (OTA_WRITE_ERROR,
          requestEvents e assetId ++ beginEvents d.size flashType ++ [Event.getStream] ++ evs
            ++ releaseEvents) := by
  simp [flashByAssetId, halloc, hstatus, hbegin, hloop]

/-- The run of `flashByAssetId` when the copy loop is left through its condition. -/
theorem flashByAssetId_end (e : Engine) (d : Download) (sink : UpdateSink)
    (assetId : Int) (flashType : FlashType) (halloc : d.urlAllocated = true)
    (hstatus : d.status = HTTP_CODE_OK) (hbegin : sink.begin d.size flashType = true)
    (evs : List Event)
    (hloop : copyLoop e.progressCallback sink d.size d.polls 0 (-1) 0 = some (true, evs)) :
    flashByAssetId e d sink assetId flashType
      = some (if sink.end_ = true then OTA_SUSSES else OTA_END_ERROR,
          requestEvents e assetId ++ beginEvents d.size flashType ++ [Event.getStream] ++ evs
            ++ [Event.updateEnd] ++ releaseEvents) := by
  by_cases hend : sink.end_ = true <;>
    simp [flashByAssetId, halloc, hstatus, hbegin, hloop, hend]

/-! ## Flash engine: the claims -/

/-- C1. In a run of `flashByAssetId` in which the URL buffer is allocated, the returned
code names the first failing stage: a GET status other than 200 gives `OTA_CONNECT_ERROR`
and a trace without any sink call; otherwise a rejected `Update.begin(size, flashType)`
gives `OTA_BEGIN_ERROR` and a trace whose only sink call is that `begin`; otherwise, when
the sink accepts every chunk in full and `written` reaches the declared size after some
number of chunks of the stream, the run returns `OTA_END_ERROR` if `Update.end()` rejects
and `OTA_SUSSES` if it accepts. -/
theorem flashByAssetId_first_failing_stage (e : Engine) (d : Download) (sink : UpdateSink)
    (assetId : Int) (flashType : FlashType) (halloc : d.urlAllocated = true) :
    (d.status ≠ HTTP_CODE_OK →
      ∃ tr, flashByAssetId e d sink assetId flashType = some (OTA_CONNECT_ERROR, tr)
        ∧ ∀ ev ∈ tr, ev.isSinkCall = false)
    ∧ (d.status = HTTP_CODE_OK → sink.begin d.size flashType = false →
      ∃ tr, flashByAssetId e d sink assetId flashType = some (OTA_BEGIN_ERROR, tr)
        ∧ tr.filter Event.isSinkCall = [Event.updateBegin d.size flashType])
    ∧ (d.status = HTTP_CODE_OK → sink.begin d.size flashType = true →
      (∀ i, i < (offered d.polls).length →
        sink.write i ((offered d.polls).getD i 0) = (offered d.polls).getD i 0) →
      (∃ i, toSizeT d.size ≤ writtenAfter 0 ((offered d.polls).take i)) →
      ∃ tr, flashByAssetId e d sink assetId flashType
        = some (if sink.end_ = true then OTA_SUSSES else OTA_END_ERROR, tr)) := by
  refine ⟨?_, ?_, ?_⟩
  · intro hstatus
    refine ⟨_, flashByAssetId_connect e d sink assetId flashType halloc hstatus, ?_⟩
    intro ev hev
    rcases List.mem_append.mp hev with h | h
    · exact requestEvents_not_sink e assetId ev h
    · simp [releaseEvents] at h
      rcases h with h | h <;> subst h <;> rfl
  · intro hstatus hbegin
    refine ⟨_, flashByAssetId_begin e d sink assetId flashType halloc hstatus hbegin, ?_⟩
    have h1 : (requestEvents e assetId).filter Event.isSinkCall = [] := by
      rw [List.filter_eq_nil_iff]
      intro ev hev
      simp [requestEvents_not_sink e assetId ev hev]
    simp only [List.filter_append, h1]
    rfl
  · intro hstatus hbegin hacc hreach
    obtain ⟨evs, hloop⟩ :=
      copyLoop_complete e.progressCallback sink d.size d.polls 0 (-1) 0
        (by simpa using hacc) hreach
    exact ⟨_, flashByAssetId_end e d sink assetId flashType halloc hstatus hbegin evs hloop⟩

/-- C1, at sample inputs: a 404 answer, a sink that rejects `begin`, and the download of
10240 bytes with a sink that rejects `end`. -/
theorem flashByAssetId_first_failing_stage_witness :
    (∃ tr, flashByAssetId sampleEngine download404 acceptingSink 7 FLASH_TYPE_FIRMWARE
        = some (OTA_CONNECT_ERROR, tr) ∧ ∀ ev ∈ tr, ev.isSinkCall = false)
    ∧ (∃ tr, flashByAssetId sampleEngine download10240 rejectingBeginSink 7 FLASH_TYPE_SPIFFS
        = some (OTA_BEGIN_ERROR, tr)
        ∧ tr.filter Event.isSinkCall = [Event.updateBegin 10240 FLASH_TYPE_SPIFFS])
    ∧ (∃ tr, flashByAssetId sampleEngine download10240 rejectingEndSink 7 FLASH_TYPE_FIRMWARE
        = some (OTA_END_ERROR, tr)) :=
  ⟨(flashByAssetId_first_failing_stage sampleEngine download404 acceptingSink 7
      FLASH_TYPE_FIRMWARE rfl).1 (by decide),
   (flashByAssetId_first_failing_stage sampleEngine download10240 rejectingBeginSink 7
      FLASH_TYPE_SPIFFS rfl).2.1 rfl rfl,
   (flashByAssetId_first_failing_stage sampleEngine download10240 rejectingEndSink 7
      FLASH_TYPE_FIRMWARE rfl).2.2 rfl rfl (fun _ _ => rfl) ⟨10, by decide⟩⟩

/-- C2. For every `k ≥ 1`: when a `k`-th call of `Update.write` is made (the stream script
holds a `k`-th non-empty chunk and `written < size` holds each time one of the first `k`
chunks is about to be read), the sink accepts the first `k - 1` chunks in full and returns
for the `k`-th a count other than the number of bytes offered, `flashByAssetId` returns
`OTA_WRITE_ERROR`, exactly `k` calls of `Update.write` are made, `Update.end` is never
called, and the last calls before the return are `client.end()` and `free(url)`. -/
theorem flashByAssetId_write_error (e : Engine) (d : Download) (sink : UpdateSink)
    (assetId : Int) (flashType : FlashType) (k : Nat) (hk : 1 ≤ k)
    (halloc : d.urlAllocated = true) (hstatus : d.status = HTTP_CODE_OK)
    (hbegin : sink.begin d.size flashType = true)
    (hoffer : k ≤ (offered d.polls).length)
    (hrun : ∀ i, i < k → writtenAfter 0 ((offered d.polls).take i) < toSizeT d.size)
    (hacc : ∀ i, i < k - 1 →
      sink.write i ((offered d.polls).getD i 0) = (offered d.polls).getD i 0)
    (hrej : sink.write (k - 1) ((offered d.polls).getD (k - 1) 0)
      ≠ (offered d.polls).getD (k - 1) 0) :
    ∃ tr, flashByAssetId e d sink assetId flashType = some (OTA_WRITE_ERROR, tr)
      ∧ writeLengths tr = (offered d.polls).take k
      ∧ (writeLengths tr).length = k
      ∧ Event.updateEnd ∉ tr
      ∧ tr.count Event.clientEnd = 1
      ∧ ∃ front, tr = front ++ [Event.clientEnd, Event.freeUrl] := by
  obtain ⟨evs, hloop, hwl⟩ :=
    copyLoop_reject_at e.progressCallback sink d.size d.polls 0 (-1) 0 (k - 1) (by omega)
      (by simpa using hacc) (by simpa using hrej) (fun i hi => hrun i (by omega))
  have hk1 : k - 1 + 1 = k := by omega
  rw [hk1] at hwl
  have hloopcall := copyLoop_isLoopCall _ _ _ _ _ _ _ _ _ hloop
  have hreq := requestEvents_not_sink e assetId
  have hwreq : writeLengths (requestEvents e assetId) = [] := by
    unfold writeLengths
    rw [List.filterMap_eq_nil_iff]
    intro ev hev
    have := hreq ev hev
    cases ev <;> simp_all [Event.isSinkCall]
  refine ⟨_, flashByAssetId_write e d sink assetId flashType halloc hstatus hbegin evs hloop,
    ?_, ?_, ?_, ?_, ?_⟩
  · simp only [writeLengths_append, hwreq, hwl]
    simp [writeLengths, releaseEvents, beginEvents]
  · simp only [writeLengths_append, hwreq, hwl]
    simp [writeLengths, releaseEvents, beginEvents]
    omega
  · intro hmem
    simp only [List.mem_append, List.mem_singleton, releaseEvents, beginEvents,
      List.mem_cons, List.not_mem_nil, or_false] at hmem
    rcases hmem with (((h | h) | h) | h) | h
    · have := hreq _ h
      simp [Event.isSinkCall] at this
    · rcases h with h | h <;> cases h
    · cases h
    · exact isLoopCall_ne_updateEnd _ (hloopcall _ h) rfl
    · rcases h with h | h <;> cases h
  · have h1 : (requestEvents e assetId).count Event.clientEnd = 0 := by
      unfold requestEvents
      cases e.token.isSome <;> simp
    have h2 : evs.count Event.clientEnd = 0 := by
      rw [List.count_eq_zero]
      intro hmem
      have := hloopcall _ hmem
      simp [Event.isLoopCall] at this
    simp [List.count_append, h1, h2, releaseEvents, beginEvents]
  · exact ⟨requestEvents e assetId ++ beginEvents d.size flashType ++ [Event.getStream]
      ++ evs, rfl⟩

/-- C2, at the sample of the specification: the third call of `write` rejects. -/
theorem flashByAssetId_write_error_witness :
    ∃ tr, flashByAssetId sampleEngine download10240 thirdWriteRejectingSink 7
        FLASH_TYPE_FIRMWARE = some (OTA_WRITE_ERROR, tr)
      ∧ writeLengths tr = (offered download10240.polls).take 3
      ∧ (writeLengths tr).length = 3
      ∧ Event.updateEnd ∉ tr
      ∧ tr.count Event.clientEnd = 1
      ∧ ∃ front, tr = front ++ [Event.clientEnd, Event.freeUrl] :=
  flashByAssetId_write_error sampleEngine download10240 thirdWriteRejectingSink 7
    FLASH_TYPE_FIRMWARE 3 (by decide) rfl rfl rfl (by decide) (by decide) (by decide)
    (by decide)

/-- C3. For a download with status 200 and declared size `S > 0` whose stream hands over
exactly `S` bytes in chunks, with a sink that accepts `begin`, every chunk in full and
`end`, `flashByAssetId` returns `OTA_SUSSES` and the lengths of the chunks written to the
sink add up to `S`. -/
theorem flashByAssetId_success (e : Engine) (d : Download) (sink : UpdateSink)
    (assetId : Int) (flashType : FlashType)
    (halloc : d.urlAllocated = true) (hstatus : d.status = HTTP_CODE_OK)
    (hpos : 0 < d.size) (hint : d.size < 2 ^ 31)
    (hsupply : (((d.polls.map readSizeOf).sum : Nat) : Int) = d.size)
    (hbegin : sink.begin d.size flashType = true)
    (hacc : ∀ i, i < (offered d.polls).length →
      sink.write i ((offered d.polls).getD i 0) = (offered d.polls).getD i 0)
    (hend : sink.end_ = true) :
    ∃ tr, flashByAssetId e d sink assetId flashType = some (OTA_SUSSES, tr)
      ∧ (((writeLengths tr).sum : Nat) : Int) = d.size := by
  have hsz : toSizeT d.size = d.size.toNat := toSizeT_of_nonneg _ (le_of_lt hpos) hint
  obtain ⟨evs, hloop, h1, h2⟩ :=
    copyLoop_accept_all e.progressCallback sink d.size (by omega) d.polls 0 (-1) 0
      (by simpa using hacc) (by omega)
  have hwreq : writeLengths (requestEvents e assetId) = [] := by
    unfold writeLengths
    rw [List.filterMap_eq_nil_iff]
    intro ev hev
    have := requestEvents_not_sink e assetId ev hev
    cases ev <;> simp_all [Event.isSinkCall]
  have hrun := flashByAssetId_end e d sink assetId flashType halloc hstatus hbegin evs hloop
  rw [if_pos hend] at hrun
  refine ⟨_, hrun, ?_⟩
  have hsum : (writeLengths (requestEvents e assetId ++ beginEvents d.size flashType
      ++ [Event.getStream] ++ evs ++ [Event.updateEnd] ++ releaseEvents)).sum
      = (writeLengths evs).sum := by
    simp only [writeLengths_append, hwreq]
    simp [writeLengths, releaseEvents, beginEvents]
  rw [hsum]
  omega

/-- C3, at the sample of the specification: 10240 bytes in ten chunks of 1024. -/
theorem flashByAssetId_success_witness :
    ∃ tr, flashByAssetId sampleEngine download10240 acceptingSink 7 FLASH_TYPE_FIRMWARE
        = some (OTA_SUSSES, tr)
      ∧ (((writeLengths tr).sum : Nat) : Int) = download10240.size :=
  flashByAssetId_success sampleEngine download10240 acceptingSink 7 FLASH_TYPE_FIRMWARE
    rfl rfl (by decide) (by decide) (by decide) rfl (fun _ _ => rfl) rfl

theorem progressCalls_requestEvents (e : Engine) (assetId : Int) :
    progressCalls (requestEvents e assetId) = [] := by
  unfold requestEvents progressCalls
  cases e.token.isSome <;> rfl

/-- With a callback set, a stream that hands over a non-empty chunk in every turn and a
sink that accepts every chunk in full, the callback receives the percentages `reportsOf`
lists. -/
theorem copyLoop_progress (sink : UpdateSink) (size : Int) :
    ∀ (polls : List Poll) (written : Nat) (last : Int) (writes : Nat) (b : Bool)
      (evs : List Event),
      (∀ p ∈ polls, 0 < readSizeOf p) →
      (∀ i, i < (offered polls).length →
        sink.write (writes + i) ((offered polls).getD i 0) = (offered polls).getD i 0) →
      copyLoop true sink size polls written last writes = some (b, evs) →
      progressCalls evs = reportsOf size (polls.map readSizeOf) written last := by
  intro polls
  induction polls with
  | nil =>
    intro written last writes b evs _ _ h
    unfold copyLoop at h
    split at h
    · simp at h
    · simp only [Option.some.injEq, Prod.mk.injEq] at h
      obtain ⟨-, rfl⟩ := h
      rfl
  | cons p ps ih =>
    intro written last writes b evs hpos hacc h
    have hr : 0 < readSizeOf p := hpos p (by simp)
    have hoff : offered (p :: ps) = readSizeOf p :: offered ps := by
      simp [offered, hr]
    rw [hoff] at hacc
    unfold copyLoop at h
    simp only [List.map_cons, reportsOf]
    split at h
    · rename_i hlt
      have h0 := hacc 0 (by simp)
      simp only [Nat.add_zero, List.getD_cons_zero] at h0
      obtain ⟨evs1, hb, -, hpc, -⟩ :=
        loopBody_accept true sink size p written last writes hr h0
      rw [hb] at h
      simp only [Option.map_eq_some', Prod.mk.injEq] at h
      obtain ⟨r, hrec, -, hevs⟩ := h
      have hih := ih _ _ _ r.1 r.2 (fun q hq => hpos q (by simp [hq]))
        (by
          intro i hi
          have := hacc (i + 1) (by simpa using hi)
          simpa [Nat.add_assoc, Nat.add_comm 1 i] using this)
        hrec
      rw [← hevs, progressCalls_append, hpc, hih, if_pos hlt]
      congr 1
      unfold reportProgress
      split <;> simp [progressCalls]
    · rename_i hlt
      simp only [Option.some.injEq, Prod.mk.injEq] at h
      obtain ⟨-, rfl⟩ := h
      rw [if_neg hlt]
      rfl

/-- C4, as the code behaves. In a download of declared size 10240 delivered in chunks of
1024 bytes, with an always-accepting sink and a progress callback set, `flashByAssetId`
returns `OTA_SUSSES` and the callback is invoked once per chunk, with the percentages
10, 20, ..., 100 in this order. -/
theorem flashByAssetId_progress_per_chunk (e : Engine) (d : Download) (sink : UpdateSink)
    (assetId : Int) (flashType : FlashType)
    (halloc : d.urlAllocated = true) (hstatus : d.status = HTTP_CODE_OK)
    (hsize : d.size = 10240)
    (hchunks : d.polls.map readSizeOf = List.replicate 10 1024)
    (hcb : e.progressCallback = true)
    (hbegin : sink.begin d.size flashType = true)
    (hacc : ∀ i n, sink.write i n = n) (hend : sink.end_ = true) :
    ∃ tr, flashByAssetId e d sink assetId flashType = some (OTA_SUSSES, tr)
      ∧ progressCalls tr = [10, 20, 30, 40, 50, 60, 70, 80, 90, 100] := by
  have hsz : toSizeT d.size = 10240 := by rw [hsize]; decide
  have hsum : (d.polls.map readSizeOf).sum = 10240 := by rw [hchunks]; decide
  obtain ⟨evs, hloop, -, -⟩ :=
    copyLoop_accept_all e.progressCallback sink d.size (by omega) d.polls 0 (-1) 0
      (fun _ _ => hacc _ _) (by omega)
  have hrun := flashByAssetId_end e d sink assetId flashType halloc hstatus hbegin evs hloop
  rw [if_pos hend] at hrun
  refine ⟨_, hrun, ?_⟩
  rw [hcb] at hloop
  have hpos : ∀ p ∈ d.polls, 0 < readSizeOf p := by
    intro p hp
    have hmem : readSizeOf p ∈ d.polls.map readSizeOf := List.mem_map_of_mem _ hp
    rw [hchunks] at hmem
    have := List.eq_of_mem_replicate hmem
    omega
  have hcalls := copyLoop_progress sink d.size d.polls 0 (-1) 0 true evs hpos
    (fun _ _ => hacc _ _) hloop
  have hreports : reportsOf 10240 (List.replicate 10 1024) 0 (-1)
      = [10, 20, 30, 40, 50, 60, 70, 80, 90, 100] := by decide
  simp only [progressCalls_append, progressCalls_requestEvents, hcalls, hchunks, hsize,
    hreports]
  rfl

/-- C4, at the sample of the specification. -/
theorem flashByAssetId_progress_per_chunk_witness :
    ∃ tr, flashByAssetId sampleEngine download10240 acceptingSink 7 FLASH_TYPE_FIRMWARE
        = some (OTA_SUSSES, tr)
      ∧ progressCalls tr = [10, 20, 30, 40, 50, 60, 70, 80, 90, 100] :=
  flashByAssetId_progress_per_chunk sampleEngine download10240 acceptingSink 7
    FLASH_TYPE_FIRMWARE rfl rfl rfl (by decide) rfl rfl (fun _ _ => rfl) rfl

/-- C4 as stated fails: in the download of 10240 bytes in chunks of 1024 the callback does
not receive the percentages 1, 2, ..., 100. -/
theorem flashByAssetId_progress_not_every_percent :
    (flashByAssetId sampleEngine download10240 acceptingSink 7 FLASH_TYPE_FIRMWARE).map
        (fun r => progressCalls r.2)
      ≠ some ((List.range' 1 100).map Int.ofNat) := by
  decide

theorem filter_resource_requestEvents (e : Engine) (assetId : Int) :
    (requestEvents e assetId).filter Event.isResourceCall
      = [Event.mallocUrl, Event.clientBegin assetId e.ca.isSome] := by
  unfold requestEvents
  cases e.token.isSome <;> rfl

theorem filter_resource_loop (evs : List Event) (h : ∀ ev ∈ evs, ev.isLoopCall = true) :
    evs.filter Event.isResourceCall = [] := by
  rw [List.filter_eq_nil_iff]
  intro ev hev
  simp [isLoopCall_not_resource ev (h ev hev)]

/-- C5. On every exit path of `flashByAssetId` (codes 0 to 5) the connection and the URL
buffer are released before the return: when the URL buffer is not allocated the run makes
no call at all and returns `OTA_NULL_URL`; otherwise the calls that open or release a
resource are exactly `malloc`, `client.begin`, `client.end`, `free(url)`, once each and in
this order, and `client.end(); free(url);` are the last calls before the return. -/
theorem flashByAssetId_releases (e : Engine) (d : Download) (sink : UpdateSink)
    (assetId : Int) (flashType : FlashType) (code : Int) (tr : List Event)
    (h : flashByAssetId e d sink assetId flashType = some (code, tr)) :
    (0 ≤ code ∧ code ≤ 5)
    ∧ (d.urlAllocated = false → code = OTA_NULL_URL ∧ tr = [])
    ∧ (d.urlAllocated = true →
        tr.filter Event.isResourceCall
          = [Event.mallocUrl, Event.clientBegin assetId e.ca.isSome, Event.clientEnd,
              Event.freeUrl]
        ∧ ∃ front, tr = front ++ [Event.clientEnd, Event.freeUrl]) := by
  by_cases halloc : d.urlAllocated = true
  · have hna : ¬ d.urlAllocated = false := by simp [halloc]
    by_cases hstatus : d.status = HTTP_CODE_OK
    · by_cases hbegin : sink.begin d.size flashType = true
      · cases hloop : copyLoop e.progressCallback sink d.size d.polls 0 (-1) 0 with
        | none => simp [flashByAssetId, halloc, hstatus, hbegin, hloop] at h
        | some r =>
          obtain ⟨b, evs⟩ := r
          have hl := copyLoop_isLoopCall _ _ _ _ _ _ _ _ _ hloop
          cases b with
          | false =>
            rw [flashByAssetId_write e d sink assetId flashType halloc hstatus hbegin evs
              hloop] at h
            simp only [Option.some.injEq, Prod.mk.injEq] at h
            obtain ⟨rfl, rfl⟩ := h
            refine ⟨by decide, fun hf => absurd hf hna, fun _ => ⟨?_, _, rfl⟩⟩
            simp only [List.filter_append, filter_resource_requestEvents,
              filter_resource_loop evs hl]
            rfl
          | true =>
            rw [flashByAssetId_end e d sink assetId flashType halloc hstatus hbegin evs
              hloop] at h
            simp only [Option.some.injEq, Prod.mk.injEq] at h
            obtain ⟨rfl, rfl⟩ := h
            refine ⟨?_, fun hf => absurd hf hna, fun _ => ⟨?_, _, rfl⟩⟩
            · split <;> decide
            · simp only [List.filter_append, filter_resource_requestEvents,
                filter_resource_loop evs hl]
              rfl
      · have hbegin : sink.begin d.size flashType = false := by simpa using hbegin
        rw [flashByAssetId_begin e d sink assetId flashType halloc hstatus hbegin] at h
        simp only [Option.some.injEq, Prod.mk.injEq] at h
        obtain ⟨rfl, rfl⟩ := h
        refine ⟨by decide, fun hf => absurd hf hna, fun _ => ⟨?_, _, rfl⟩⟩
        simp only [List.filter_append, filter_resource_requestEvents]
        rfl
    · rw [flashByAssetId_connect e d sink assetId flashType halloc hstatus] at h
      simp only [Option.some.injEq, Prod.mk.injEq] at h
      obtain ⟨rfl, rfl⟩ := h
      refine ⟨by decide, fun hf => absurd hf hna, fun _ => ⟨?_, _, rfl⟩⟩
      simp only [List.filter_append, filter_resource_requestEvents]
      rfl
  · have hf : d.urlAllocated = false := by simpa using halloc
    simp only [flashByAssetId, hf, Bool.not_false, if_true, Option.some.injEq,
      Prod.mk.injEq] at h
    obtain ⟨rfl, rfl⟩ := h
    exact ⟨by decide, fun _ => ⟨rfl, rfl⟩, fun ht => absurd ht halloc⟩

/-- C5, at the sample download of 10240 bytes with the sink whose third `write` rejects. -/
theorem flashByAssetId_releases_witness :
    ∃ code tr,
      flashByAssetId sampleEngine download10240 thirdWriteRejectingSink 7 FLASH_TYPE_FIRMWARE
        = some (code, tr)
      ∧ (0 ≤ code ∧ code ≤ 5)
      ∧ (download10240.urlAllocated = false → code = OTA_NULL_URL ∧ tr = [])
      ∧ (download10240.urlAllocated = true →
          tr.filter Event.isResourceCall
            = [Event.mallocUrl, Event.clientBegin 7 sampleEngine.ca.isSome, Event.clientEnd,
                Event.freeUrl]
          ∧ ∃ front, tr = front ++ [Event.clientEnd, Event.freeUrl]) :=
  ⟨_, _, rfl,
    flashByAssetId_releases sampleEngine download10240 thirdWriteRejectingSink 7
      FLASH_TYPE_FIRMWARE _ _ rfl⟩

/-! ## Release client: the claims -/

/-- On a sequence of assets that all carry a name, the scan of `getAssetByname` returns the
first asset of that name, and the declared (empty) asset when there is none. -/
theorem getAssetBynameLoop_named (asset : GithubReleaseAsset) (name : String) :
    ∀ assets : List GithubReleaseAsset, (∀ a ∈ assets, a.name ≠ none) →
      getAssetBynameLoop asset (some name) assets
        = some ((assets.find? (fun a => a.name = some name)).getD asset) := by
  intro assets
  induction assets with
  | nil => intro _; rfl
  | cons a rest ih =>
    intro h
    have ha := h a (by simp)
    obtain ⟨n, hn⟩ := Option.ne_none_iff_exists'.mp ha
    unfold getAssetBynameLoop
    by_cases heq : n = name
    · simp [strcmp, hn, heq]
    · simp [strcmp, hn, heq, List.find?_cons]
      split
      · simpa [heq] using ih (fun b hb => h b (by simp [hb]))
      · simpa [heq] using ih (fun b hb => h b (by simp [hb]))

/-- C6, at a failing input. For the release built from a payload whose asset has no `name`
key, `getAssetByname(release, "firmware.bin")` calls `strcmp` with a null first argument:
the scan has no defined result, where the claim has it return the empty asset. -/
theorem getAssetByname_null_name_undefined :
    (makeRelease (parseAs unnamedAssetPayload) heapOk "").assets.map (fun a => a.name)
        = [none]
      ∧ getAssetByname zeroAsset (makeRelease (parseAs unnamedAssetPayload) heapOk "")
          (some "firmware.bin") = none := by
  decide

/-- Whenever `getAssetByname` hands back an asset whose `browser_download_url` is null (as
it does when every asset has a name and none has the given one),
`flashFirmware(release, name)` and `flashSpiffs(release, name)` return `OTA_NULL_URL` and
make no call at all: no network call, no sink call. -/
theorem flash_by_name_null_url (e : Engine) (d : Download) (sink : UpdateSink)
    (u : AssetIndeterminate) (release : GithubRelease) (name : String) :
    ((∃ a, getAssetByname u release (some name) = some a ∧ a.browser_download_url = none) →
      flashFirmware e d sink u release (some name) = some (OTA_NULL_URL, [])
        ∧ flashSpiffs e d sink u release (some name) = some (OTA_NULL_URL, []))
    ∧ ((∀ a ∈ release.assets, a.name ≠ none ∧ a.name ≠ some name) →
      getAssetByname u release (some name) = some (GithubReleaseAsset.declared u)
        ∧ flashFirmware e d sink u release (some name) = some (OTA_NULL_URL, [])
        ∧ flashSpiffs e d sink u release (some name) = some (OTA_NULL_URL, [])) := by
  have key : ∀ a, getAssetByname u release (some name) = some a →
      a.browser_download_url = none →
      flashFirmware e d sink u release (some name) = some (OTA_NULL_URL, [])
        ∧ flashSpiffs e d sink u release (some name) = some (OTA_NULL_URL, []) := by
    intro a ha hnull
    simp [flashFirmware, flashSpiffs, ha, hnull]
  refine ⟨fun ⟨a, ha, hnull⟩ => key a ha hnull, ?_⟩
  intro hnames
  have hres : getAssetByname u release (some name) = some (GithubReleaseAsset.declared u) := by
    unfold getAssetByname
    rw [getAssetBynameLoop_named _ _ _ (fun a ha => (hnames a ha).1)]
    have hfind : release.assets.find? (fun a => a.name = some name) = none := by
      rw [List.find?_eq_none]
      intro a ha
      simpa using (hnames a ha).2
    rw [hfind]
    rfl
  exact ⟨hres, key _ hres rfl⟩

/-- C7, at a failing input. In the release built from a payload whose only asset has no
`name` key, no asset is named "firmware.bin" or "spiffs.bin", so resolving either name
fails. `flashFirmware(release, "firmware.bin")` and `flashSpiffs(release, "spiffs.bin")`
do not return `OTA_NULL_URL`: their call of `getAssetByname` runs `strcmp` with a null
first argument, and the run has no defined result. -/
theorem flash_by_name_null_name_undefined :
    (∀ a ∈ (makeRelease (parseAs unnamedAssetPayload) heapOk "").assets,
        a.name ≠ some GITHUB_OTA_FIRMWARE_NAME ∧ a.name ≠ some GITHUB_OTA_SPIFFS_NAME)
      ∧ flashFirmware sampleEngine download10240 acceptingSink zeroAsset
          (makeRelease (parseAs unnamedAssetPayload) heapOk "")
          (some GITHUB_OTA_FIRMWARE_NAME) = none
      ∧ flashSpiffs sampleEngine download10240 acceptingSink zeroAsset
          (makeRelease (parseAs unnamedAssetPayload) heapOk "")
          (some GITHUB_OTA_SPIFFS_NAME) = none := by
  decide

/-- C8, at a failing input. The latest-release query is answered with status 200 and a
payload that carries the `tag_name` "v1.2.3" and no `name`: the release built from it has
that tag, yet `getLatestReleaseTag` returns the empty string, because it tests
`release.name` and not `release.tag_name`. -/
theorem getLatestReleaseTag_untitled_release :
    ((parseAs untitledPayload query200.reply.payload).get "tag_name").asCStr = some "v1.2.3"
      ∧ (getLatestRelease (parseAs untitledPayload) query200).tag_name = some "v1.2.3"
      ∧ (getLatestReleaseTag (parseAs untitledPayload) query200).1 = "" := by
  decide

/-- C9, at a failing input. The latest-release query is answered with status 404 while the
storage of the local `release` holds a non-zero word where `tag_name` lies (the member has
no default initialiser): `getLatestRelease` returns a release whose `tag_name` is that
word, not null, and the `freeRelease` call of `getLatestReleaseTag` passes it to `free`.
The asset and author sequences are empty and the returned tag is the empty string. -/
theorem getLatestRelease_404_stale_tag_name :
    (getLatestRelease (parseAs samplePayload) query404).tag_name = some "stale bytes"
      ∧ (getLatestRelease (parseAs samplePayload) query404).assets = []
      ∧ (getLatestRelease (parseAs samplePayload) query404).author = []
      ∧ getLatestReleaseTag (parseAs samplePayload) query404
          = ("", [{ owner := Owner.release, field := "tag_name" }]) := by
  decide

/-! ## Metadata builder: the claims -/

theorem copyString_fst_of_ok (heap : Nat → Bool) (h : ∀ i, heap i = true)
    (s : Option String) (n : Nat) : (copyString heap s n).1 = s := by
  unfold copyString
  cases s <;> simp [h]

theorem copyString_fst_null (heap : Nat → Bool) (n : Nat) :
    (copyString heap none n).1 = none := rfl

theorem asCStr_get_of_absent (v : JsonVariant) (key : String) (h : v.hasKey key = false) :
    (v.get key).asCStr = none := by
  cases v with
  | obj members =>
    simp only [JsonVariant.hasKey] at h
    simp only [JsonVariant.get]
    cases hl : members.lookup key with
    | none => rfl
    | some x => simp [hl] at h
  | _ => rfl

theorem asInt_get_of_absent (v : JsonVariant) (key : String) (h : v.hasKey key = false) :
    (v.get key).asInt = 0 := by
  cases v with
  | obj members =>
    simp only [JsonVariant.hasKey] at h
    simp only [JsonVariant.get]
    cases hl : members.lookup key with
    | none => rfl
    | some x => simp [hl] at h
  | _ => rfl

theorem makeAssets_cons (heap : Nat → Bool) (el : JsonVariant) (els : List JsonVariant)
    (n : Nat) :
    (makeAssets heap (el :: els) n).1
      = (makeAsset heap el n).1 :: (makeAssets heap els (makeAsset heap el n).2).1 := rfl

theorem makeAssets_length (heap : Nat → Bool) :
    ∀ (els : List JsonVariant) (n : Nat), (makeAssets heap els n).1.length = els.length := by
  intro els
  induction els with
  | nil => intro n; rfl
  | cons el els ih => intro n; rw [makeAssets_cons, List.length_cons, ih, List.length_cons]

/-- The `i`-th asset of the sequence is the one built from the `i`-th element. -/
theorem makeAssets_getElem? (heap : Nat → Bool) :
    ∀ (els : List JsonVariant) (n i : Nat) (a : GithubReleaseAsset) (el : JsonVariant),
      (makeAssets heap els n).1[i]? = some a → els[i]? = some el →
      ∃ m, a = (makeAsset heap el m).1 := by
  intro els
  induction els with
  | nil => intro n i a el _ h; simp at h
  | cons x xs ih =>
    intro n i a el ha hel
    rw [makeAssets_cons] at ha
    cases i with
    | zero =>
      simp only [List.getElem?_cons_zero, Option.some.injEq] at ha hel
      exact ⟨n, by rw [← ha, hel]⟩
    | succ i =>
      simp only [List.getElem?_cons_succ] at ha hel
      exact ih _ i a el ha hel

/-- C10, as the code behaves. For every payload, when every allocation made while building
succeeds, `makeRelease` yields a release whose `tag_name` is the payload's `tag_name`
string and whose asset sequence has one asset per element of the payload's `assets` array,
in document order, the `i`-th asset carrying the id, the name and the
`browser_download_url` of the `i`-th element; every text field of the release and of its
assets is the string under its key, hence null when the key is absent; and building again
from the same payload yields an equal release. -/
theorem makeRelease_of_payload (deserializeJson : String → JsonVariant) (heap : Nat → Bool)
    (payload : String) (hheap : ∀ i, heap i = true) :
    (∀ t, (deserializeJson payload).get "tag_name" = JsonVariant.str t →
      (makeRelease deserializeJson heap payload).tag_name = some t)
    ∧ (makeRelease deserializeJson heap payload).assets.length
        = ((deserializeJson payload).get "assets").asArray.length
    ∧ (∀ (i : Nat) (a : GithubReleaseAsset) (el : JsonVariant),
        (makeRelease deserializeJson heap payload).assets[i]? = some a →
        ((deserializeJson payload).get "assets").asArray[i]? = some el →
        a.id = (el.get "id").asInt ∧ a.name = (el.get "name").asCStr
          ∧ a.browser_download_url = (el.get "browser_download_url").asCStr
          ∧ ∀ kv ∈ a.textFields,
              kv.2 = (el.get kv.1).asCStr ∧ (el.hasKey kv.1 = false → kv.2 = none))
    ∧ (∀ kv ∈ (makeRelease deserializeJson heap payload).textFields,
        kv.2 = ((deserializeJson payload).get kv.1).asCStr
          ∧ ((deserializeJson payload).hasKey kv.1 = false → kv.2 = none))
    ∧ (∀ heap1 : Nat → Bool, (∀ i, heap1 i = true) →
        makeRelease deserializeJson heap1 payload = makeRelease deserializeJson heap payload) := by
  have hcopy := copyString_fst_of_ok heap hheap
  refine ⟨?_, ?_, ?_, ?_, ?_⟩
  · intro t ht
    have h1 : (makeRelease deserializeJson heap payload).tag_name
        = ((deserializeJson payload).get "tag_name").asCStr := hcopy _ _
    rw [h1, ht]
    rfl
  · exact makeAssets_length heap _ _
  · intro i a el ha hel
    obtain ⟨m, rfl⟩ := makeAssets_getElem? heap _ _ i a el ha hel
    have hfields : ∀ kv ∈ (makeAsset heap el m).1.textFields,
        kv.2 = (el.get kv.1).asCStr := by
      intro kv hkv
      simp only [GithubReleaseAsset.textFields, List.mem_cons, List.mem_singleton,
        List.not_mem_nil, or_false] at hkv
      rcases hkv with rfl | rfl | rfl | rfl | rfl | rfl | rfl | rfl | rfl <;>
        exact hcopy _ _
    refine ⟨rfl, hcopy _ _, hcopy _ _, ?_⟩
    intro kv hkv
    refine ⟨hfields kv hkv, fun habs => ?_⟩
    rw [hfields kv hkv]
    exact asCStr_get_of_absent _ _ habs
  · have hfields : ∀ kv ∈ (makeRelease deserializeJson heap payload).textFields,
        kv.2 = ((deserializeJson payload).get kv.1).asCStr := by
      intro kv hkv
      simp only [GithubRelease.textFields, List.mem_cons, List.mem_singleton,
        List.not_mem_nil, or_false] at hkv
      rcases hkv with rfl | rfl | rfl | rfl | rfl | rfl | rfl | rfl | rfl | rfl | rfl
        | rfl | rfl <;> exact hcopy _ _
    intro kv hkv
    refine ⟨hfields kv hkv, fun habs => ?_⟩
    rw [hfields kv hkv]
    exact asCStr_get_of_absent _ _ habs
  · intro heap1 hheap1
    have : heap1 = heap := funext (fun i => by rw [hheap, hheap1])
    rw [this]

/-- C10, at the sample payload for the tag "v1.2.3". -/
theorem makeRelease_of_payload_witness :
    (makeRelease (parseAs samplePayload) heapOk "").tag_name = some "v1.2.3"
      ∧ (makeRelease (parseAs samplePayload) heapOk "").assets.length
          = ((parseAs samplePayload "").get "assets").asArray.length
      ∧ (∀ heap1 : Nat → Bool, (∀ i, heap1 i = true) →
          makeRelease (parseAs samplePayload) heap1 ""
            = makeRelease (parseAs samplePayload) heapOk "") :=
  ⟨(makeRelease_of_payload (parseAs samplePayload) heapOk "" (fun _ => rfl)).1 "v1.2.3" rfl,
   (makeRelease_of_payload (parseAs samplePayload) heapOk "" (fun _ => rfl)).2.1,
   (makeRelease_of_payload (parseAs samplePayload) heapOk "" (fun _ => rfl)).2.2.2.2⟩

/-- C10 as stated fails: from the payload for the tag "v1.2.3", when `malloc` returns no
buffer to `copyString`, `makeRelease` yields a release whose `tag_name` is null and whose
assets carry no name. -/
theorem makeRelease_allocation_failure :
    ((parseAs samplePayload "").get "tag_name").asCStr = some "v1.2.3"
      ∧ (makeRelease (parseAs samplePayload) heapExhausted "").tag_name = none
      ∧ (makeRelease (parseAs samplePayload) heapExhausted "").assets.map (fun a => a.name)
          = [none, none] := by
  decide

/-! ## Metadata disposer: the claims -/

theorem writtenAfter_replicate (c : Nat) :
    ∀ (n w : Nat), w + n * c < 2 ^ 32 → writtenAfter w (List.replicate n c) = w + n * c := by
  intro n
  induction n with
  | zero => intro w _; simp [writtenAfter]
  | succ n ih =>
    intro w h
    have h1 : (w + c) % 2 ^ 32 = w + c := Nat.mod_eq_of_lt (by nlinarith)
    have h2 := ih (w + c) (by nlinarith)
    simp only [writtenAfter, List.replicate_succ, List.foldl_cons] at h2 ⊢
    rw [h1, h2]
    ring

/-- The percentages reported over two runs of chunks in a row, `written < size` holding
before each chunk of the first run. -/
theorem reportsOf_append (size : Int) :
    ∀ (xs ys : List Nat) (w : Nat) (l : Int),
      (∀ i, i < xs.length → writtenAfter w (xs.take i) < toSizeT size) →
      reportsOf size (xs ++ ys) w l
        = reportsOf size xs w l
          ++ reportsOf size ys (writtenAfter w xs)
              (if xs = [] then l else progressOf (writtenAfter w xs) size) := by
  intro xs
  induction xs with
  | nil => intro ys w l _; simp [reportsOf, writtenAfter]
  | cons x xs ih =>
    intro ys w l h
    have h0 : w < toSizeT size := by
      simpa [writtenAfter] using h 0 (by simp)
    have hrec := ih ys ((w + x) % 2 ^ 32) (progressOf ((w + x) % 2 ^ 32) size)
      (by
        intro i hi
        have := h (i + 1) (by simpa using hi)
        simpa [writtenAfter] using this)
    have hlast : (if xs = [] then progressOf ((w + x) % 2 ^ 32) size
        else progressOf (writtenAfter ((w + x) % 2 ^ 32) xs) size)
        = progressOf (writtenAfter ((w + x) % 2 ^ 32) xs) size := by
      split
      · rename_i hnil
        rw [hnil]
        rfl
      · rfl
    rw [hlast] at hrec
    have hw : writtenAfter w (x :: xs) = writtenAfter ((w + x) % 2 ^ 32) xs := rfl
    have hne : ¬ (x :: xs = []) := by simp
    simp only [List.cons_append, reportsOf, if_pos h0, hw, List.append_assoc, if_neg hne]
    exact congrArg _ hrec

/-- The percentages reported while 42000 chunks of 1024 bytes of a download of declared
size 43008000 are copied: 0 after the first chunk and 0 again at the end, after
`written * 100` has passed `2 ^ 32`. -/
theorem reportsOf_43008000 :
    ∃ mid, reportsOf 43008000 (List.replicate 42000 1024) 0 (-1) = 0 :: (mid ++ [0]) := by
  have hsz : toSizeT 43008000 = 43008000 := by decide
  have hsplit : List.replicate 42000 (1024 : Nat)
      = List.replicate 1 1024 ++ (List.replicate 41942 1024 ++ List.replicate 57 1024) := by
    rw [← List.replicate_add, ← List.replicate_add]
  have hA := reportsOf_append 43008000 (List.replicate 1 1024)
    (List.replicate 41942 1024 ++ List.replicate 57 1024) 0 (-1)
    (by
      intro i hi
      have hi0 : i = 0 := by simpa using hi
      subst hi0
      decide)
  have hA1 : reportsOf 43008000 (List.replicate 1 1024) 0 (-1) = [0] := by decide
  have hA2 : writtenAfter 0 (List.replicate 1 1024) = 1024 := by decide
  have hA3 : (if List.replicate 1 (1024 : Nat) = [] then (-1 : Int)
      else progressOf (writtenAfter 0 (List.replicate 1 1024)) 43008000) = 0 := by decide
  rw [hA1, hA3, hA2] at hA
  have hB := reportsOf_append 43008000 (List.replicate 41942 1024) (List.replicate 57 1024)
    1024 0
    (by
      intro i hi
      rw [List.length_replicate] at hi
      rw [List.take_replicate, writtenAfter_replicate 1024 _ 1024 (by omega), hsz]
      omega)
  have hB1 : writtenAfter 1024 (List.replicate 41942 1024) = 42949632 := by
    rw [writtenAfter_replicate 1024 41942 1024 (by norm_num)]
  have hB2 : (if List.replicate 41942 (1024 : Nat) = [] then (0 : Int)
      else progressOf (writtenAfter 1024 (List.replicate 41942 1024)) 43008000) = 99 := by
    have hne : ¬ (List.replicate 41942 (1024 : Nat) = []) := by
      intro h
      have h1 := congrArg List.length h
      rw [List.length_replicate, List.length_nil] at h1
      omega
    rw [hB1, if_neg hne]
    decide
  have hB3 : reportsOf 43008000 (List.replicate 57 1024) 42949632 99 = [0] := by decide
  rw [hB2, hB1, hB3] at hB
  refine ⟨reportsOf 43008000 (List.replicate 41942 1024) 1024 0, ?_⟩
  rw [hsplit, hA, hB, List.singleton_append]

/-- C12, at a failing input. A download of declared size 43008000 is delivered in 42000
chunks of 1024 bytes to an always-accepting sink, a progress callback being set. The run
returns `OTA_SUSSES`, and the callback receives 0 after the first chunk and 0 once more as
its last value: when `written` passes 42949672 the product `written * 100` no longer fits
the 32 bits of `size_t`, and the percentage computed from it falls from 99 back to 0. The
reported sequence is not strictly increasing and the value 0 is reported twice. -/
theorem flashByAssetId_progress_wraps :
    ∃ tr mid,
      flashByAssetId sampleEngine download43008000 acceptingSink 7 FLASH_TYPE_FIRMWARE
        = some (OTA_SUSSES, tr)
      ∧ progressCalls tr = 0 :: (mid ++ [0]) := by
  have hpolls : download43008000.polls
      = List.replicate 42000 { available := 1024, readBytes := 1024 } := rfl
  have hsize : download43008000.size = 43008000 := rfl
  have hread : readSizeOf { available := 1024, readBytes := 1024 } = 1024 := by decide
  have hmap : download43008000.polls.map readSizeOf = List.replicate 42000 1024 := by
    rw [hpolls, List.map_replicate, hread]
  have hsz : toSizeT download43008000.size = 43008000 := by rw [hsize]; decide
  have hsum : (download43008000.polls.map readSizeOf).sum = 43008000 := by
    rw [hmap, List.sum_replicate, smul_eq_mul]
  have hacc : ∀ i, i < (offered download43008000.polls).length →
      acceptingSink.write (0 + i) ((offered download43008000.polls).getD i 0)
        = (offered download43008000.polls).getD i 0 := fun _ _ => rfl
  obtain ⟨evs, hloop, -, -⟩ :=
    copyLoop_accept_all sampleEngine.progressCallback acceptingSink download43008000.size
      (by omega) download43008000.polls 0 (-1) 0 hacc (by omega)
  have hrun := flashByAssetId_end sampleEngine download43008000 acceptingSink 7
    FLASH_TYPE_FIRMWARE rfl rfl rfl evs hloop
  have hend : acceptingSink.end_ = true := rfl
  rw [if_pos hend] at hrun
  have hcb : sampleEngine.progressCallback = true := rfl
  rw [hcb] at hloop
  have hpos : ∀ p ∈ download43008000.polls, 0 < readSizeOf p := by
    intro p hp
    rw [hpolls] at hp
    rw [List.eq_of_mem_replicate hp, hread]
    omega
  have hcalls := copyLoop_progress acceptingSink download43008000.size
    download43008000.polls 0 (-1) 0 true evs hpos hacc hloop
  rw [hmap, hsize] at hcalls
  obtain ⟨mid, hmid⟩ := reportsOf_43008000
  refine ⟨_, mid, hrun, ?_⟩
  simp only [progressCalls_append, progressCalls_requestEvents, hcalls, hmid]
  simp [progressCalls, beginEvents, releaseEvents]

theorem progressCalls_reportProgress (cb : Bool) (p l : Int) :
    progressCalls (reportProgress cb p l) = if p ≠ l ∧ cb = true then [p] else [] := by
  unfold reportProgress
  by_cases h : p = l
  · simp [h, progressCalls]
  · cases cb <;> simp [h, progressCalls]

/-- What one turn of the loop body does to `written`, to `lastProgress` and to the
callback: either nothing, or the percentage of the new value of `written` is computed,
stored, and reported when it differs from `lastProgress`. -/
theorem loopBody_progress (cb : Bool) (sink : UpdateSink) (size : Int) (p : Poll)
    (written : Nat) (last : Int) (writes : Nat) :
    (∃ evs, loopBody cb sink size p written last writes = Turn.abort evs
      ∧ progressCalls evs = [])
    ∨ (∃ w1 l1 k1 evs, loopBody cb sink size p written last writes = Turn.next w1 l1 k1 evs
      ∧ ((w1 = written ∧ l1 = last ∧ progressCalls evs = [])
        ∨ ((w1 = written ∨ ∃ r, r ≤ 1024 ∧ w1 = (written + r) % 2 ^ 32)
          ∧ l1 = progressOf w1 size
          ∧ progressCalls evs = if l1 ≠ last ∧ cb = true then [l1] else []))) := by
  by_cases hr : 0 < readSizeOf p
  · by_cases hw : sink.write writes (readSizeOf p) = readSizeOf p
    · obtain ⟨evs, hb, -, hpc, -⟩ := loopBody_accept cb sink size p written last writes hr hw
      refine Or.inr ⟨_, _, _, evs, hb, Or.inr ⟨Or.inr ⟨readSizeOf p, readSizeOf_le p, rfl⟩,
        rfl, ?_⟩⟩
      rw [hpc, progressCalls_reportProgress]
    · obtain ⟨evs, hb, -, hpc, -⟩ := loopBody_reject cb sink size p written last writes hr hw
      exact Or.inl ⟨evs, hb, hpc⟩
  · have h0 : readSizeOf p = 0 := by omega
    unfold readSizeOf at h0
    unfold loopBody
    by_cases ha : 0 < toSizeT p.available
    · simp only [ha, if_true] at h0 ⊢
      have hz : ¬ 0 < min p.readBytes (min (toSizeT p.available) chunkSize) := by omega
      simp only [hz, if_false]
      refine Or.inr ⟨_, _, _, _, rfl, Or.inr ⟨Or.inl rfl, rfl, ?_⟩⟩
      simp only [progressCalls_append, progressCalls_reportProgress]
      simp [progressCalls]
    · simp only [ha, if_false]
      exact Or.inr ⟨_, _, _, _, rfl, Or.inl ⟨rfl, rfl, rfl⟩⟩

/-- As long as `written * 100` fits `size_t`, the stored percentage is the quotient
`written * 100 / size`. -/
theorem progressOf_eq (size : Int) (w : Nat) (hpos : 0 < toSizeT size)
    (hno : (toSizeT size + 1024) * 100 ≤ 2 ^ 32) (hw : w < toSizeT size + 1024) :
    progressOf w size = ((w * 100 / toSizeT size : Nat) : Int) := by
  unfold progressOf toInt
  have h1 : w * 100 % 2 ^ 32 = w * 100 := Nat.mod_eq_of_lt (by omega)
  have h2 : w * 100 / toSizeT size < 2 ^ 31 := by
    rw [Nat.div_lt_iff_lt_mul hpos]
    omega
  have h3 : w * 100 / toSizeT size % 2 ^ 32 = w * 100 / toSizeT size :=
    Nat.mod_eq_of_lt (by omega)
  rw [h1, h3, if_pos h2]

theorem progressOf_mono (size : Int) (w w1 : Nat) (hpos : 0 < toSizeT size)
    (hno : (toSizeT size + 1024) * 100 ≤ 2 ^ 32) (hle : w ≤ w1)
    (hw : w1 < toSizeT size + 1024) : progressOf w size ≤ progressOf w1 size := by
  rw [progressOf_eq size w hpos hno (by omega), progressOf_eq size w1 hpos hno hw]
  exact Int.ofNat_le.mpr (Nat.div_le_div_right (Nat.mul_le_mul_right 100 hle))

/-- As long as `written * 100` fits `size_t` (declared sizes up to 42948648), the
percentages the callback receives in the copy loop are strictly increasing, whatever the
stream and the sink answer. -/
theorem copyLoop_reports_increasing (cb : Bool) (sink : UpdateSink) (size : Int)
    (hno : (toSizeT size + 1024) * 100 ≤ 2 ^ 32) :
    ∀ (polls : List Poll) (written : Nat) (last : Int) (writes : Nat) (b : Bool)
      (evs : List Event),
      last ≤ progressOf written size →
      copyLoop cb sink size polls written last writes = some (b, evs) →
      List.Chain (fun x y => x < y) last (progressCalls evs) := by
  intro polls
  induction polls with
  | nil =>
    intro written last writes b evs _ h
    unfold copyLoop at h
    split at h
    · simp at h
    · simp only [Option.some.injEq, Prod.mk.injEq] at h
      obtain ⟨-, rfl⟩ := h
      exact List.Chain.nil
  | cons p ps ih =>
    intro written last writes b evs hinv h
    unfold copyLoop at h
    split at h
    · rename_i hlt
      have hpos : 0 < toSizeT size := by omega
      rcases loopBody_progress cb sink size p written last writes with
        ⟨evs1, hb, hpc⟩ | ⟨w1, l1, k1, evs1, hb, hcase⟩
      · rw [hb] at h
        simp only [Option.some.injEq, Prod.mk.injEq] at h
        obtain ⟨-, rfl⟩ := h
        rw [hpc]
        exact List.Chain.nil
      · rw [hb] at h
        simp only [Option.map_eq_some', Prod.mk.injEq] at h
        obtain ⟨r, hrec, -, hevs⟩ := h
        rw [← hevs, progressCalls_append]
        rcases hcase with ⟨hw1, hl1, hpc⟩ | ⟨hw1, hl1, hpc⟩
        · rw [hpc, List.nil_append]
          subst hw1 hl1
          exact ih _ _ _ r.1 r.2 hinv hrec
        · have hbound : written ≤ w1 ∧ w1 < toSizeT size + 1024 := by
            rcases hw1 with hw1 | ⟨c, hc, hw1⟩
            · omega
            · have hmod : (written + c) % 2 ^ 32 = written + c :=
                Nat.mod_eq_of_lt (by omega)
              omega
          have hle : last ≤ l1 := by
            rw [hl1]
            exact le_trans hinv
              (progressOf_mono size written w1 hpos hno hbound.1 hbound.2)
          have hih := ih w1 l1 k1 r.1 r.2 (by rw [hl1]) hrec
          rw [hpc]
          split
          · rename_i hrep
            exact List.Chain.cons (lt_of_le_of_ne hle (Ne.symm hrep.1)) hih
          · rw [List.nil_append]
            exact List.Chain.imp' (fun _ _ hab => hab) (fun c hc => lt_of_le_of_lt hle hc) hih
    · simp only [Option.some.injEq, Prod.mk.injEq] at h
      obtain ⟨-, rfl⟩ := h
      exact List.Chain.nil

/-- As long as `written * 100` fits `size_t`, the percentages reported in a run of
`flashByAssetId` are strictly increasing: each value is reported at most once. -/
theorem flashByAssetId_reports_increasing (e : Engine) (d : Download) (sink : UpdateSink)
    (assetId : Int) (flashType : FlashType) (code : Int) (tr : List Event)
    (hno : (toSizeT d.size + 1024) * 100 ≤ 2 ^ 32)
    (h : flashByAssetId e d sink assetId flashType = some (code, tr)) :
    (progressCalls tr).Pairwise (fun x y => x < y) := by
  have hnil : ([] : List Int).Pairwise (fun x y => x < y) := List.Pairwise.nil
  by_cases halloc : d.urlAllocated = true
  · by_cases hstatus : d.status = HTTP_CODE_OK
    · by_cases hbegin : sink.begin d.size flashType = true
      · cases hloop : copyLoop e.progressCallback sink d.size d.polls 0 (-1) 0 with
        | none => simp [flashByAssetId, halloc, hstatus, hbegin, hloop] at h
        | some r =>
          obtain ⟨b, evs⟩ := r
          have h0 : (-1 : Int) ≤ progressOf 0 d.size := by
            unfold progressOf toInt
            simp
          have hchain := copyLoop_reports_increasing e.progressCallback sink d.size hno
            d.polls 0 (-1) 0 b evs h0 hloop
          have hpw : (progressCalls evs).Pairwise (fun x y => x < y) :=
            (List.pairwise_cons.mp (List.chain_iff_pairwise.mp hchain)).2
          cases b with
          | false =>
            rw [flashByAssetId_write e d sink assetId flashType halloc hstatus hbegin evs
              hloop] at h
            simp only [Option.some.injEq, Prod.mk.injEq] at h
            obtain ⟨-, rfl⟩ := h
            simp only [progressCalls_append, progressCalls_requestEvents]
            simpa [progressCalls, beginEvents, releaseEvents] using hpw
          | true =>
            rw [flashByAssetId_end e d sink assetId flashType halloc hstatus hbegin evs
              hloop] at h
            simp only [Option.some.injEq, Prod.mk.injEq] at h
            obtain ⟨-, rfl⟩ := h
            simp only [progressCalls_append, progressCalls_requestEvents]
            simpa [progressCalls, beginEvents, releaseEvents] using hpw
      · have hbegin : sink.begin d.size flashType = false := by simpa using hbegin
        rw [flashByAssetId_begin e d sink assetId flashType halloc hstatus hbegin] at h
        simp only [Option.some.injEq, Prod.mk.injEq] at h
        obtain ⟨-, rfl⟩ := h
        simp only [progressCalls_append, progressCalls_requestEvents]
        simp [progressCalls, beginEvents, releaseEvents]
    · rw [flashByAssetId_connect e d sink assetId flashType halloc hstatus] at h
      simp only [Option.some.injEq, Prod.mk.injEq] at h
      obtain ⟨-, rfl⟩ := h
      simp only [progressCalls_append, progressCalls_requestEvents]
      simp [progressCalls, beginEvents, releaseEvents]
  · have hf : d.urlAllocated = false := by simpa using halloc
    simp only [flashByAssetId, hf, Bool.not_false, if_true, Option.some.injEq,
      Prod.mk.injEq] at h
    obtain ⟨-, rfl⟩ := h
    exact hnil

/-! ## Metadata disposer: the releases the code builds -/

/-- The releases `getLatestRelease` and `getReleaseByTagName` return are built by the code:
each is a result of `makeRelease` or a declared release. -/
theorem client_release_built (deserializeJson : String → JsonVariant) (q : Query)
    (tagName : Option String) :
    ((∃ dj heap payload, getLatestRelease deserializeJson q = makeRelease dj heap payload)
      ∨ ∃ u, getLatestRelease deserializeJson q = GithubRelease.declared u)
    ∧ ((∃ dj heap payload,
          getReleaseByTagName deserializeJson q tagName = makeRelease dj heap payload)
      ∨ ∃ u, getReleaseByTagName deserializeJson q tagName = GithubRelease.declared u) := by
  constructor
  · unfold getLatestRelease
    by_cases h1 : q.urlAllocated = true
    · by_cases h2 : q.reply.code = HTTP_CODE_OK
      · exact Or.inl ⟨deserializeJson, q.heap, q.reply.payload, by simp [h1, h2]⟩
      · exact Or.inr ⟨q.indeterminate, by simp [h1, h2]⟩
    · exact Or.inr ⟨q.indeterminate, by simp [h1]⟩
  · unfold getReleaseByTagName
    cases tagName with
    | none => exact Or.inr ⟨_, rfl⟩
    | some t =>
      by_cases h1 : q.urlAllocated = true
      · by_cases h2 : q.reply.code = HTTP_CODE_OK
        · exact Or.inl ⟨deserializeJson, q.heap, q.reply.payload, by simp [h1, h2]⟩
        · exact Or.inr ⟨q.indeterminate, by simp [h1, h2]⟩
      · exact Or.inr ⟨q.indeterminate, by simp [h1]⟩

end GithubReleaseOTA
